import Mathlib

/-!
Verification development for the Web_UpCon_Dolby real-time audio DSP chain.

The development shallowly embeds the core of the repository:
  * the pipeline orchestrator (src/src/audio/processors/AudioPipeline.ts):
    its connect / disconnect state machine and its latency estimator,
    together with the popup-side latency estimator (calculateExpectedLatency);
  * the three worklet stages
    (src/src/audio/worklets/upsampler.worklet.ts,
     src/src/audio/worklets/spectral-extender.worklet.ts,
     src/src/audio/worklets/spatial-processor.worklet.ts)
    and the alternate spectral extender revision;
  * the iterative radix-2 FFT used by the spectral extender, its relation to
    the discrete Fourier transform, and the overlap-add normalization.

Samples are modelled as real numbers (the sources compute with floats and
transcendental functions); configuration and latency arithmetic, which the
sources perform with plain arithmetic, is modelled over the rationals so that
witnesses evaluate by decision procedures.  Buffers (rings, delay lines) are
modelled as total functions from indices to samples, updated pointwise, with
the same modulus arithmetic as the sources.
-/

/-! ## Configuration records (types/audio.types.ts and the worklet settings) -/

/-- Interpolation quality, field quality of the upsampling settings. -/
inductive Quality where
  | linear : Quality
  | sinc : Quality
deriving DecidableEq, Repr

/-- Spatial mode enumeration from spatial-processor.worklet.ts. -/
inductive SpatialMode where
  | off : SpatialMode
  | stereoWide : SpatialMode
  | surround71 : SpatialMode
  | atmos : SpatialMode
deriving DecidableEq, Repr

/-- Upsampling sub-settings of AudioSettings (rational model, for the
latency estimator). -/
structure UpsamplingSettingsQ where
  enabled : Bool
  targetSampleRate : ℚ
  quality : Quality
deriving DecidableEq, Repr

/-- Frequency-extension sub-settings of AudioSettings (rational model). -/
structure FrequencyExtensionSettingsQ where
  enabled : Bool
  maxFrequency : ℚ
  intensity : ℚ
deriving DecidableEq, Repr

/-- Spatial-audio sub-settings of AudioSettings (rational model). -/
structure SpatialAudioSettingsQ where
  enabled : Bool
  mode : SpatialMode
  width : ℚ
  depth : ℚ
  height : ℚ
  hrtfIntensity : ℚ
deriving DecidableEq, Repr

/-- The AudioSettings record consumed by AudioPipeline.updateSettings and by
the popup-side latency estimator. -/
structure AudioSettingsQ where
  enabled : Bool
  hiResEnabled : Bool
  spatialEnabled : Bool
  useGPU : Bool
  lowLatencyMode : Bool
  masterVolume : ℚ
  upsampling : UpsamplingSettingsQ
  frequencyExtension : FrequencyExtensionSettingsQ
  spatialAudio : SpatialAudioSettingsQ
deriving DecidableEq, Repr

/-! ## Pipeline orchestrator state machine (AudioPipeline.ts) -/

/-- Observable data of an AudioContext that the latency estimator reads:
sampleRate, baseLatency and outputLatency. -/
structure CtxInfo where
  sampleRate : ℚ
  baseLatency : ℚ
  outputLatency : ℚ
deriving DecidableEq, Repr

/-- The mutable fields of the AudioPipeline class.  Node references are
modelled by presence flags (the orchestrator only ever tests them against
null); the media element is an abstract identifier. -/
structure PipelineState where
  audioContext : Option CtxInfo
  sourceNode : Bool
  upsamplerNode : Bool
  spectralExtenderNode : Bool
  spatialNode : Bool
  makeupGainNode : Bool
  gainNode : Bool
  analyserNode : Bool
  frequencyData : Bool
  isConnected : Bool
  currentElement : Option ℕ
  settings : Option AudioSettingsQ
  gpuDevice : Bool
  gpuActive : Bool
  workletsLoaded : Bool
deriving DecidableEq, Repr

/-- The final assignment block of AudioPipeline.disconnect: every node
reference, the context, the element and all flags are cleared; the settings
reference is the only field disconnect leaves in place. -/
def disconnectRun (st : PipelineState) : PipelineState :=
  { audioContext := none
    sourceNode := false
    upsamplerNode := false
    spectralExtenderNode := false
    spatialNode := false
    makeupGainNode := false
    gainNode := false
    analyserNode := false
    frequencyData := false
    isConnected := false
    currentElement := none
    settings := st.settings
    gpuDevice := false
    gpuActive := false
    workletsLoaded := false }

/-- Environment of one connect call: whether the extension context check
passes, whether the body of the try block (context creation, source node
creation, chain construction) succeeds, the data of the context it would
create, and whether all three worklet modules load. -/
structure ConnectEnv where
  contextValid : Bool
  buildOk : Bool
  ctx : CtxInfo
  workletsLoaded : Bool
deriving DecidableEq, Repr

/-- Errors surfaced by AudioPipeline.connect. -/
inductive ConnectError where
  | contextInvalid : ConnectError
  | buildFailed : ConnectError
deriving DecidableEq, Repr

/-- AudioPipeline.connect as a state transition.  In source order: the
early return when the same element is already connected; the extension
context validity check, which throws before any cleanup; the cleanup of any
existing connection (await this.disconnect()); then the try block, which on
success installs the context, nodes and flags and on failure runs
disconnect again and rethrows. -/
def connectRun (env : ConnectEnv) (st : PipelineState) (el : ℕ) :
    PipelineState × Option ConnectError :=
  if st.currentElement = some el ∧ st.isConnected then (st, none)
  else if env.contextValid = false then (st, some .contextInvalid)
  else
    let st1 := disconnectRun st
    if env.buildOk then
      ({ st1 with
          audioContext := some env.ctx
          sourceNode := true
          gainNode := true
          makeupGainNode := true
          analyserNode := true
          frequencyData := true
          workletsLoaded := env.workletsLoaded
          upsamplerNode := env.workletsLoaded
          spectralExtenderNode := env.workletsLoaded
          spatialNode := env.workletsLoaded
          currentElement := some el
          isConnected := true }, none)
    else (disconnectRun st1, some .buildFailed)

/-- Predicate: the orchestrator is in the fully Disconnected state
(every node reference, the audio context, the current element and all
flags are reset). -/
def FullyDisconnected (st : PipelineState) : Prop :=
  st.audioContext = none ∧ st.sourceNode = false ∧ st.upsamplerNode = false ∧
  st.spectralExtenderNode = false ∧ st.spatialNode = false ∧
  st.makeupGainNode = false ∧ st.gainNode = false ∧ st.analyserNode = false ∧
  st.frequencyData = false ∧ st.isConnected = false ∧
  st.currentElement = none ∧ st.gpuDevice = false ∧ st.gpuActive = false ∧
  st.workletsLoaded = false

instance (st : PipelineState) : Decidable (FullyDisconnected st) := by
  unfold FullyDisconnected; infer_instance

/-! ## Latency estimators -/

/-- The sample-domain delay accounting shared verbatim by
AudioPipeline.calculateProcessingLatency and by the popup-side
calculateExpectedLatency: per-stage algorithmic delays when the stage is
configured active, plus one 128-sample worklet buffer per active node
(gain node included). -/
def latencySamples (s : AudioSettingsQ) : ℚ :=
  let workletBufferSize : ℚ := 128
  let upsActive := s.hiResEnabled ∧ s.upsampling.enabled
  let extActive := s.hiResEnabled ∧ s.frequencyExtension.enabled
  let spatActive := s.spatialEnabled ∧ s.spatialAudio.enabled
  let upsSamples : ℚ :=
    if upsActive then (if s.lowLatencyMode then 4 else 16) / 2 else 0
  let extSamples : ℚ :=
    if extActive then (if s.lowLatencyMode then 256 else 512) else 0
  let spatSamples : ℚ :=
    if spatActive then
      (if s.lowLatencyMode then 50 else 200) * (s.spatialAudio.depth / 100)
      + (if s.spatialAudio.mode = SpatialMode.atmos then
          (if s.lowLatencyMode then 25 else 100) * (s.spatialAudio.height / 100)
        else 0)
    else 0
  let activeNodes : ℚ := 1 + (if upsActive then 1 else 0)
    + (if extActive then 1 else 0) + (if spatActive then 1 else 0)
  upsSamples + extSamples + spatSamples + workletBufferSize * activeNodes

/-- AudioPipeline.calculateProcessingLatency, reading only the settings and
the audio context of the pipeline state: hardware latency plus the
sample-domain delay converted to milliseconds.  Returns 0 when either the
context or the settings are missing, exactly as the source does. -/
def calcProcessingLatency (st : PipelineState) : ℚ :=
  match st.audioContext, st.settings with
  | some ctx, some s =>
    (ctx.baseLatency + ctx.outputLatency) * 1000
      + latencySamples s / ctx.sampleRate * 1000
  | _, _ => 0

/-- calculateExpectedLatency from the popup (src/unnamed/part_009): the same
sample accounting over a fixed 48000 Hz rate, without the hardware term. -/
def calcExpectedLatency (s : AudioSettingsQ) : ℚ :=
  latencySamples s / 48000 * 1000

/-- Helper: the settings record with the low-latency flag replaced. -/
def withLowLatency (s : AudioSettingsQ) (b : Bool) : AudioSettingsQ :=
  { s with lowLatencyMode := b }

/-- Pointwise array assignment: the function equal to f except at index i,
where it returns v (arr[i] = v on a buffer modelled as a function). -/
def upd {α : Type} (f : ℕ → α) (i : ℕ) (v : α) : ℕ → α :=
  fun j => if j = i then v else f j

/-! ## Worklet settings and the updateSettings message handlers

Each worklet keeps a private settings record and, on a message whose type
field is the string updateSettings, replaces it field-wise: a field present
in the message (some v) wins, a field absent from the message (none,
modelling undefined) keeps the previous value, via the ?? operator. -/

/-- Settings record of UpsamplerProcessor. -/
structure UpsamplerSettings where
  enabled : Bool
  targetSampleRate : ℝ
  quality : Quality
  lowLatencyMode : Bool

/-- Settings record of SpectralExtenderProcessor (both revisions). -/
structure ExtSettings where
  enabled : Bool
  maxFrequency : ℝ
  intensity : ℝ

/-- Settings record of SpatialProcessor. -/
structure SpatialSettings where
  enabled : Bool
  mode : SpatialMode
  width : ℝ
  depth : ℝ
  height : ℝ
  hrtfIntensity : ℝ
  lowLatencyMode : Bool

/-- Message payload accepted by the upsampler onmessage handler: a type tag
plus one optional entry per settings field. -/
structure UpsamplerMsg where
  type : String
  enabled : Option Bool
  targetSampleRate : Option ℝ
  quality : Option Quality
  lowLatencyMode : Option Bool

/-- Message payload accepted by the spectral extender onmessage handler. -/
structure ExtMsg where
  type : String
  enabled : Option Bool
  maxFrequency : Option ℝ
  intensity : Option ℝ

/-- Message payload accepted by the spatial processor onmessage handler. -/
structure SpatialMsg where
  type : String
  enabled : Option Bool
  mode : Option SpatialMode
  width : Option ℝ
  depth : Option ℝ
  height : Option ℝ
  hrtfIntensity : Option ℝ
  lowLatencyMode : Option Bool

/-- The onmessage handler of UpsamplerProcessor (upsampler.worklet.ts,
constructor): on an updateSettings message, merge field-wise with ??. -/
def upsamplerOnMessage (old : UpsamplerSettings) (m : UpsamplerMsg) :
    UpsamplerSettings :=
  if m.type = "updateSettings" then
    { enabled := m.enabled.getD old.enabled
      targetSampleRate := m.targetSampleRate.getD old.targetSampleRate
      quality := m.quality.getD old.quality
      lowLatencyMode := m.lowLatencyMode.getD old.lowLatencyMode }
  else old

/-- The onmessage handler of SpectralExtenderProcessor. -/
def extOnMessage (old : ExtSettings) (m : ExtMsg) : ExtSettings :=
  if m.type = "updateSettings" then
    { enabled := m.enabled.getD old.enabled
      maxFrequency := m.maxFrequency.getD old.maxFrequency
      intensity := m.intensity.getD old.intensity }
  else old

/-- The onmessage handler of SpatialProcessor. -/
def spatialOnMessage (old : SpatialSettings) (m : SpatialMsg) :
    SpatialSettings :=
  if m.type = "updateSettings" then
    { enabled := m.enabled.getD old.enabled
      mode := m.mode.getD old.mode
      width := m.width.getD old.width
      depth := m.depth.getD old.depth
      height := m.height.getD old.height
      hrtfIntensity := m.hrtfIntensity.getD old.hrtfIntensity
      lowLatencyMode := m.lowLatencyMode.getD old.lowLatencyMode }
  else old

/-! ## Upsampler stage (upsampler.worklet.ts, second revision)

The processor interpolates each channel independently against the current
input block.  Indexing that can run past the end of the block follows the
source: samples[index] ?? 0 reads 0 out of bounds, samples[index + 1] ??
sample0 falls back to the left neighbour. -/

/-- One entry of the precomputed Lanczos-windowed sinc table
(generateSincTable): index i of the table for the given window size. -/
noncomputable def sincTableValue (windowSize : ℕ) (i : ℕ) : ℝ :=
  let x : ℝ := (i : ℝ) / 256 - (windowSize : ℝ) / 2
  if |x| < 0.0001 then 1
  else
    (Real.sin (Real.pi * x) / (Real.pi * x)) *
      (Real.sin (Real.pi * x / ((windowSize : ℝ) / 2)) /
        (Real.pi * x / ((windowSize : ℝ) / 2)))

/-- linearInterpolate: read the two neighbouring samples of the fractional
position and blend. -/
noncomputable def linearInterpolate (samples : List ℝ) (position : ℝ) : ℝ :=
  let index : ℕ := (⌊position⌋).toNat
  let fraction : ℝ := position - (index : ℝ)
  let sample0 : ℝ := samples.getD index 0
  let sample1 : ℝ := samples.getD (index + 1) sample0
  sample0 + fraction * (sample1 - sample0)

/-- sincInterpolate with bufferOffset 0: convolve the window of the table
against the samples around the fractional position.  The window size and
table are selected by the low-latency flag. -/
noncomputable def sincInterpolate (lowLatencyMode : Bool) (samples : List ℝ)
    (position : ℝ) : ℝ :=
  let index : ℤ := ⌊position⌋
  let fraction : ℝ := position - (index : ℝ)
  let windowSize : ℕ := if lowLatencyMode then 4 else 16
  let halfWindow : ℤ := (windowSize : ℤ) / 2
  (List.range windowSize).foldl (fun result k =>
    let i : ℤ := (k : ℤ) - halfWindow
    let sampleIndex : ℤ := index + i
    if 0 ≤ sampleIndex ∧ sampleIndex < (samples.length : ℤ) then
      let tableIndex : ℤ := round (((i : ℝ) - fraction + (halfWindow : ℝ)) * 256)
      let coef : ℝ :=
        if 0 ≤ tableIndex ∧ tableIndex < ((windowSize * 256 : ℕ) : ℤ) then
          sincTableValue windowSize tableIndex.toNat
        else 0
      result + samples.getD sampleIndex.toNat 0 * coef
    else result) 0

/-- The per-channel body of UpsamplerProcessor.process once the enabled
check has passed: pass through when the ratio is at most 1, otherwise
interpolate every output sample at source position i / ratio, with sinc
interpolation only when quality is sinc and low-latency mode is off. -/
noncomputable def upsamplerChannel (s : UpsamplerSettings) (sampleRate : ℝ)
    (input : List ℝ) : List ℝ :=
  let ratio := s.targetSampleRate / sampleRate
  if ratio ≤ 1 then input
  else
    let useSinc := s.quality = Quality.sinc ∧ ¬ s.lowLatencyMode
    (List.range input.length).map (fun i =>
      let srcPosition := (i : ℝ) / ratio
      if useSinc then sincInterpolate s.lowLatencyMode input srcPosition
      else linearInterpolate input srcPosition)

/-- Per-channel history kept by the upsampler (previousSamples, 32 entries
per channel); written at the end of each block, never read by the
interpolators (they are called with bufferOffset 0 on the current block). -/
structure UpsState where
  prev0 : List ℝ
  prev1 : List ℝ

/-- previousSamples update: prevSamples.set(input.slice(-32)) overwrites the
first min(len input, 32) entries and keeps the rest. -/
def upsPrevUpdate (old : List ℝ) (input : List ℝ) : List ℝ :=
  let tail := input.drop (input.length - 32)
  tail ++ old.drop tail.length

/-- UpsamplerProcessor.process on a stereo block: bypass copy when disabled,
otherwise interpolate each channel; previousSamples is refreshed from the
input in both enabled branches. -/
noncomputable def upsamplerProcess (s : UpsamplerSettings) (sampleRate : ℝ)
    (st : UpsState) (inL inR : List ℝ) : (List ℝ × List ℝ) × UpsState :=
  if ¬ s.enabled then ((inL, inR), st)
  else
    ((upsamplerChannel s sampleRate inL, upsamplerChannel s sampleRate inR),
     { prev0 := upsPrevUpdate st.prev0 inL
       prev1 := upsPrevUpdate st.prev1 inR })

/-! ## The iterative radix-2 FFT (SpectralExtenderProcessor.fft)

The source keeps two Float32Arrays real and imag and transforms them in
place: a bit-reversal permutation followed by butterfly passes of sizes
2, 4, ..., n, where the pass of size s combines pairs (even, odd) as
  t = odd * (cos θ + i sin θ),  θ = (inverse ? 2 : -2)π j / s,
  odd = even - t, even = even + t,
and the inverse transform finally divides both components by n.  The pair
of arrays is modelled as one array of complex numbers (re, im); complex
multiplication computes exactly the tr / ti expressions of the source.
Arrays are total functions from indices; for inputs of length 2 ^ levels
every index the algorithm touches below 2 ^ levels stays below it. -/

/-- The bit-reversal loop: j = (j << 1) | ((i >> k) & 1) for k below
levels.  bitRev levels i is j after the loop. -/
def bitRev : ℕ → ℕ → ℕ
  | 0, _ => 0
  | k + 1, i => 2 * bitRev k i + i / 2 ^ k % 2

/-- Twiddle angle of the butterfly pass of the given size at offset j:
step * j with step = (inverse ? 2 : -2)π / size. -/
noncomputable def twidAngle (inverse : Bool) (size j : ℕ) : ℝ :=
  (if inverse then 2 else -2) * Real.pi / (size : ℝ) * (j : ℝ)

/-- Twiddle factor (cos θ, sin θ) as a complex number. -/
noncomputable def twiddle (inverse : Bool) (size j : ℕ) : ℂ :=
  ⟨Real.cos (twidAngle inverse size j), Real.sin (twidAngle inverse size j)⟩

/-- One butterfly pass of the given size over the array: position idx with
j = idx % size in the lower half of its block is the even slot, the upper
half the odd slot. -/
noncomputable def fftPass (inverse : Bool) (size : ℕ) (a : ℕ → ℂ) : ℕ → ℂ :=
  fun idx =>
    let half := size / 2
    let j := idx % size
    if j < half then a idx + twiddle inverse size j * a (idx + half)
    else a (idx - half) - twiddle inverse size (j - half) * a idx

/-- The passes of sizes 2, 4, ..., 2 ^ s applied in order (the source loop
for size = 2; size <= n; size *= 2). -/
noncomputable def fftPasses (inverse : Bool) : ℕ → (ℕ → ℂ) → ℕ → ℂ
  | 0, a => a
  | s + 1, a => fftPass inverse (2 ^ (s + 1)) (fftPasses inverse s a)

/-- The in-place FFT of SpectralExtenderProcessor on an array of length
2 ^ levels: bit-reversal (the conditional swap loop realizes the involutive
permutation i ↦ bitRev levels i), the butterfly passes, and for the inverse
transform the final division of both components by n. -/
noncomputable def fftRun (inverse : Bool) (levels : ℕ) (x : ℕ → ℂ) : ℕ → ℂ :=
  let permuted := fftPasses inverse levels (fun i => x (bitRev levels i))
  if inverse then fun i => permuted i / ((2 ^ levels : ℕ) : ℂ) else permuted

/-- The discrete Fourier transform with the same sign convention, used to
state what fftRun computes.  dft false is the forward transform with kernel
exp(-2πi jk / m). -/
noncomputable def dft (inverse : Bool) (m : ℕ) (x : ℕ → ℂ) : ℕ → ℂ :=
  fun k => ∑ j ∈ Finset.range m, x j * twiddle inverse m (j * k)

/-! ## Spectral extender, main worklet (spectral-extender.worklet.ts) -/

/-- FFT length of the main spectral extender. -/
def extFFTSize : ℕ := 1024

/-- Hop size (75 percent overlap). -/
def extHopSize : ℕ := 256

/-- Hann window of the main extender: 0.5 (1 - cos(2πi / N)). -/
noncomputable def hann (N : ℕ) (i : ℕ) : ℝ :=
  0.5 * (1 - Real.cos (2 * Real.pi * (i : ℝ) / (N : ℝ)))

/-- The windowSum field after the constructor: the sum of the squared
window entries, multiplied by FFT_SIZE / HOP_SIZE. -/
noncomputable def extWindowSum (N H : ℕ) : ℝ :=
  (∑ i ∈ Finset.range N, hann N i * hann N i) * (N : ℝ) / (H : ℝ)

/-- The overlap-add normalization scale of processFrame:
HOP_SIZE / windowSum * 2. -/
noncomputable def extScale (N H : ℕ) : ℝ :=
  (H : ℝ) / extWindowSum N H * 2

/-- The fixed per-bin phase offset table: ((i * 137) % 100) / 100 * 2π. -/
noncomputable def phaseOffset (i : ℕ) : ℝ :=
  ((i * 137 % 100 : ℕ) : ℝ) / 100 * (2 * Real.pi)

/-- Math.atan2 y x, modelled by the argument of the complex number x + iy
(both have range (-π, π]). -/
noncomputable def atan2 (y x : ℝ) : ℝ := Complex.arg ⟨x, y⟩

/-- SpectralExtenderProcessor.applySBR over a spectrum array: for every
destination bin between the assumed codec cutoff and the configured target,
copy magnitude from a source bin (wrapped across the 8 kHz to cutoff band),
attenuate with distance and intensity, shift the phase by the offset table,
and mirror into the conjugate bin.  The loop is modelled as a sequential
fold of point updates. -/
noncomputable def applySBR (sampleRate : ℝ) (s : ExtSettings)
    (spec : ℕ → ℂ) : ℕ → ℂ :=
  let nyquist := sampleRate / 2
  let binCount : ℕ := extFFTSize / 2
  let hzPerBin := nyquist / (binCount : ℝ)
  let cutoffBin : ℕ := min (⌊(15000 : ℝ) / hzPerBin⌋).toNat (binCount - 1)
  let targetHz := min s.maxFrequency (nyquist * 0.9)
  let targetBin : ℕ := min (⌊targetHz / hzPerBin⌋).toNat (binCount - 1)
  if targetBin ≤ cutoffBin then spec
  else
    let intensity := s.intensity / 100
    let srcStartBin : ℕ := (⌊(8000 : ℝ) / hzPerBin⌋).toNat
    if cutoffBin ≤ srcStartBin then spec
    else
      let srcWidth : ℕ := cutoffBin - srcStartBin
      (List.range (targetBin - cutoffBin)).foldl (fun acc d =>
        let destBin := cutoffBin + 1 + d
        let srcBin := srcStartBin + d % srcWidth
        let re := (acc srcBin).re
        let im := (acc srcBin).im
        let mag := Real.sqrt (re * re + im * im)
        let phase := atan2 im re
        let ratio := ((destBin - cutoffBin : ℕ) : ℝ) /
          ((targetBin - cutoffBin : ℕ) : ℝ)
        let atten := (1 - ratio * 0.7) * intensity
        let newPhase := phase + phaseOffset (destBin % (extFFTSize / 2))
        let newMag := mag * atten
        let acc1 := upd acc destBin
          ⟨newMag * Real.cos newPhase, newMag * Real.sin newPhase⟩
        let mirrorBin := extFFTSize - destBin
        if 0 < mirrorBin ∧ mirrorBin < extFFTSize then
          upd acc1 mirrorBin
            ⟨newMag * Real.cos (-newPhase), newMag * Real.sin (-newPhase)⟩
        else acc1) spec

/-- Per-connection state of the main spectral extender: a 2 FFT_SIZE input
ring and output ring per channel, shared cursors, the hop counter and the
initialization bookkeeping. -/
structure ExtState where
  inRing0 : ℕ → ℝ
  inRing1 : ℕ → ℝ
  outRing0 : ℕ → ℝ
  outRing1 : ℕ → ℝ
  inputPos : ℕ
  outputPos : ℕ
  hopCounter : ℕ
  initialized : Bool
  initCounter : ℕ

/-- The zeroed state built by the constructor. -/
def ExtState.zero : ExtState :=
  { inRing0 := fun _ => 0
    inRing1 := fun _ => 0
    outRing0 := fun _ => 0
    outRing1 := fun _ => 0
    inputPos := 0
    outputPos := 0
    hopCounter := 0
    initialized := false
    initCounter := 0 }

/-- The windowed analysis frame of processFrame: the FFT_SIZE most recent
ring samples, multiplied by the window.  The source index
(inputPos - FFT_SIZE + i + len) % len is written with natural-number
arithmetic as (inputPos + len - FFT_SIZE + i) % len. -/
noncomputable def extFrame (ring : ℕ → ℝ) (inputPos : ℕ) : ℕ → ℂ :=
  fun i =>
    ((ring ((inputPos + 2 * extFFTSize - extFFTSize + i) % (2 * extFFTSize))
      * hann extFFTSize i : ℝ) : ℂ)

/-- SpectralExtenderProcessor.processFrame for one channel: window, forward
FFT, SBR, inverse FFT, then overlap-add of the windowed and scaled
synthesis frame into the output ring. -/
noncomputable def extProcessFrame (sampleRate : ℝ) (s : ExtSettings)
    (ring : ℕ → ℝ) (outRing : ℕ → ℝ) (inputPos outputPos : ℕ) : ℕ → ℝ :=
  let synth := fftRun true 10 (applySBR sampleRate s
    (fftRun false 10 (extFrame ring inputPos)))
  (List.range extFFTSize).foldl (fun acc i =>
    let idx := (outputPos + i) % (2 * extFFTSize)
    upd acc idx
      (acc idx + (synth i).re * hann extFFTSize i * extScale extFFTSize extHopSize))
    outRing

/-- One iteration of the main processing loop of
SpectralExtenderProcessor.process: push one input sample per channel into
the input rings, advance the hop counter and run processFrame on both
channels when it reaches HOP_SIZE, then pop one output sample per channel
from the output rings (zeroing the slot behind the cursor). -/
noncomputable def extStep (sampleRate : ℝ) (s : ExtSettings)
    (st : ExtState) (x0 x1 : ℝ) : (ℝ × ℝ) × ExtState :=
  let st1 : ExtState :=
    { st with
        inRing0 := upd st.inRing0 st.inputPos x0
        inRing1 := upd st.inRing1 st.inputPos x1
        inputPos := (st.inputPos + 1) % (2 * extFFTSize)
        hopCounter := st.hopCounter + 1 }
  let st2 : ExtState :=
    if extHopSize ≤ st1.hopCounter then
      { st1 with
          outRing0 := extProcessFrame sampleRate s st1.inRing0 st1.outRing0
            st1.inputPos st1.outputPos
          outRing1 := extProcessFrame sampleRate s st1.inRing1 st1.outRing1
            st1.inputPos st1.outputPos
          hopCounter := 0 }
    else st1
  let o0 := st2.outRing0 st2.outputPos
  let o1 := st2.outRing1 st2.outputPos
  ((o0, o1),
   { st2 with
       outRing0 := upd st2.outRing0 st2.outputPos 0
       outRing1 := upd st2.outRing1 st2.outputPos 0
       outputPos := (st2.outputPos + 1) % (2 * extFFTSize) })

/-- The main loop folded over a block of stereo samples, accumulating the
output pairs in order. -/
noncomputable def extLoop (sampleRate : ℝ) (s : ExtSettings) :
    ExtState → List (ℝ × ℝ) → List (ℝ × ℝ) × ExtState
  | st, [] => ([], st)
  | st, (x0, x1) :: rest =>
    let (o, st1) := extStep sampleRate s st x0 x1
    let (os, st2) := extLoop sampleRate s st1 rest
    (o :: os, st2)

/-- Write a block sequentially into a ring starting at pos, without modulo,
as the initialization branch of process does (inputRing[ch][inputPos + i]). -/
def writeSeq : (ℕ → ℝ) → ℕ → List ℝ → ℕ → ℝ
  | ring, _, [] => ring
  | ring, pos, v :: rest => writeSeq (upd ring pos v) (pos + 1) rest

/-- SpectralExtenderProcessor.process on a stereo block: bypass copy when
disabled or the intensity is at most 0; during the initialization period
copy the input while filling the input rings, switching to processing once
FFT_SIZE samples have been buffered; afterwards run the main loop. -/
noncomputable def extProcess (sampleRate : ℝ) (s : ExtSettings)
    (st : ExtState) (inL inR : List ℝ) : (List ℝ × List ℝ) × ExtState :=
  if ¬ s.enabled ∨ s.intensity ≤ 0 then ((inL, inR), st)
  else if ¬ st.initialized then
    let n := inL.length
    let st1 : ExtState :=
      { st with
          inRing0 := writeSeq st.inRing0 st.inputPos inL
          inRing1 := writeSeq st.inRing1 st.inputPos inR
          inputPos := (st.inputPos + n) % (2 * extFFTSize)
          initCounter := st.initCounter + n }
    let st2 : ExtState :=
      if extFFTSize ≤ st1.initCounter then
        { st1 with initialized := true, outputPos := st1.inputPos }
      else st1
    ((inL, inR), st2)
  else
    let (pairs, st1) := extLoop sampleRate s st (inL.zip inR)
    ((pairs.map Prod.fst, pairs.map Prod.snd), st1)

/-! ## Steady-state overlap-add reconstruction

To state the round-trip property of processFrame, the hop-aligned analysis
frames of a doubly infinite signal are transformed forward and back and
overlap-added with the synthesis window and the normalization scale, as the
main loop does once the output ring is past its initialization: the output
sample at time t receives contributions from the four overlapping frames
that cover it, at window offsets j0, j0 + H, j0 + 2H, j0 + 3H. -/

/-- Forward plus inverse FFT of the windowed analysis frame starting at
signal time s (processFrame before the overlap-add, with the SBR step
contributing nothing). -/
noncomputable def frameRoundtrip (L : ℕ) (x : ℤ → ℝ) (s : ℤ) : ℕ → ℂ :=
  fftRun true L (fftRun false L
    (fun j => ((x (s + (j : ℤ)) * hann (2 ^ L) j : ℝ) : ℂ)))

/-- The steady-state overlap-add output at signal time t, at offset j0
inside the most recent hop: the four overlapping synthesis contributions
(windowed and scaled as in processFrame) summed. -/
noncomputable def olaOut (L : ℕ) (x : ℤ → ℝ) (t : ℤ) (j0 : ℕ) : ℝ :=
  ∑ k ∈ Finset.range 4,
    (frameRoundtrip L x (t - ((j0 + k * (2 ^ L / 4) : ℕ) : ℤ))
        (j0 + k * (2 ^ L / 4))).re
      * hann (2 ^ L) (j0 + k * (2 ^ L / 4)) * extScale (2 ^ L) (2 ^ L / 4)

/-! ## Spectral extender, alternate revision (src/unnamed/part_002)

This revision uses FFT_SIZE 2048, HOP_SIZE 512, a Hann window with
denominator FFT_SIZE - 1, per-channel write and read cursors, no
normalization scale in the overlap-add, and it only bypasses when disabled:
the intensity only gates the extendSpectrum call inside processFrame. -/

/-- FFT length of the alternate extender. -/
def altFFTSize : ℕ := 2048

/-- Hop size of the alternate extender. -/
def altHopSize : ℕ := 512

/-- Hann window of the alternate revision: 0.5 (1 - cos(2πi / (N - 1))). -/
noncomputable def hannAlt (N : ℕ) (i : ℕ) : ℝ :=
  0.5 * (1 - Real.cos (2 * Real.pi * (i : ℝ) / ((N : ℝ) - 1)))

/-- extendSpectrum of the alternate revision: mirror magnitudes from below
the source cutoff into the band up to the target cutoff, attenuated
exponentially, keeping the source phase, added into the existing bins. -/
noncomputable def altExtendSpectrum (sampleRate : ℝ) (s : ExtSettings)
    (spec : ℕ → ℂ) : ℕ → ℂ :=
  let nyquist := sampleRate / 2
  let sourceCutoff := min (nyquist * 0.8) 16000
  let targetCutoff := min s.maxFrequency (nyquist * 0.95)
  if targetCutoff ≤ sourceCutoff then spec
  else
    let binCount : ℕ := altFFTSize / 2
    let sourceBin : ℕ := (⌊sourceCutoff / nyquist * (binCount : ℝ)⌋).toNat
    let targetBin : ℕ := (⌊targetCutoff / nyquist * (binCount : ℝ)⌋).toNat
    (List.range (targetBin - sourceBin)).foldl (fun acc d =>
      let i := sourceBin + d
      let sourceIdx : ℕ := sourceBin - d % (sourceBin / 2)
      if 0 < sourceIdx ∧ sourceIdx < sourceBin then
        let mag := Real.sqrt ((acc sourceIdx).re ^ 2 + (acc sourceIdx).im ^ 2)
        let freqRatio := (i : ℝ) / (binCount : ℝ)
        let attenuation := Real.exp (-3 * freqRatio) * s.intensity
        let phase := atan2 (acc sourceIdx).im (acc sourceIdx).re
        upd acc i
          ⟨(acc i).re + mag * attenuation * Real.cos phase,
           (acc i).im + mag * attenuation * Real.sin phase⟩
      else acc) spec

/-- Per-channel state of the alternate extender. -/
structure AltChanState where
  inputBuffer : ℕ → ℝ
  inputWritePos : ℕ
  outputBuffer : ℕ → ℝ
  outputReadPos : ℕ

/-- The zeroed per-channel state. -/
def AltChanState.zero : AltChanState :=
  { inputBuffer := fun _ => 0
    inputWritePos := 0
    outputBuffer := fun _ => 0
    outputReadPos := 0 }

/-- Write a block into a ring of size 2 FFT_SIZE, advancing the cursor
modulo the ring length after every sample, as the input loop of the
alternate process does. -/
def writeRing : (ℕ → ℝ) → ℕ → List ℝ → ℕ → ℝ
  | ring, _, [] => ring
  | ring, pos, v :: rest =>
    writeRing (upd ring pos v) ((pos + 1) % (2 * altFFTSize)) rest

/-- Read n samples from the output buffer of a channel at the read cursor,
zeroing each slot after reading and advancing the cursor modulo the ring
length, as the output loop of the alternate process does. -/
noncomputable def altReadOut : AltChanState → ℕ → List ℝ × AltChanState
  | ch, 0 => ([], ch)
  | ch, n + 1 =>
    let v := ch.outputBuffer ch.outputReadPos
    let ch1 : AltChanState :=
      { ch with
          outputBuffer := upd ch.outputBuffer ch.outputReadPos 0
          outputReadPos := (ch.outputReadPos + 1) % (2 * altFFTSize) }
    let (vs, ch2) := altReadOut ch1 n
    (v :: vs, ch2)

/-- processFrame of the alternate revision: window the first FFT_SIZE
entries of the input buffer, forward FFT, extendSpectrum only when enabled
with positive intensity, inverse FFT, and overlap-add the windowed
synthesis frame (with no normalization scale) at the read cursor. -/
noncomputable def altProcessFrame (sampleRate : ℝ) (s : ExtSettings)
    (ch : AltChanState) : AltChanState :=
  let frame : ℕ → ℂ := fun i => ((ch.inputBuffer i * hannAlt altFFTSize i : ℝ) : ℂ)
  let spec := fftRun false 11 frame
  let spec1 := if s.enabled ∧ 0 < s.intensity
    then altExtendSpectrum sampleRate s spec else spec
  let synth := fftRun true 11 spec1
  { ch with
      outputBuffer := (List.range altFFTSize).foldl (fun acc i =>
        let idx := (ch.outputReadPos + i) % (2 * altFFTSize)
        upd acc idx
          (acc idx + (synth i).re * hannAlt altFFTSize i)) ch.outputBuffer }

/-- The per-channel body of the alternate process: append the block to the
input buffer, run processFrame when the write cursor lands on a hop
boundary, then read the block from the output buffer, zeroing slots as
they are consumed. -/
noncomputable def altChannelProcess (sampleRate : ℝ) (s : ExtSettings)
    (ch : AltChanState) (input : List ℝ) : List ℝ × AltChanState :=
  let ch1 : AltChanState :=
    { ch with
        inputBuffer := writeRing ch.inputBuffer ch.inputWritePos input
        inputWritePos := (ch.inputWritePos + input.length) % (2 * altFFTSize) }
  let ch2 := if ch1.inputWritePos % altHopSize = 0
    then altProcessFrame sampleRate s ch1 else ch1
  altReadOut ch2 input.length

/-- SpectralExtenderProcessor.process of the alternate revision on a stereo
block: bypass copy only when disabled. -/
noncomputable def altProcess (sampleRate : ℝ) (s : ExtSettings)
    (ch0 ch1 : AltChanState) (inL inR : List ℝ) :
    (List ℝ × List ℝ) × (AltChanState × AltChanState) :=
  if ¬ s.enabled then ((inL, inR), (ch0, ch1))
  else
    let (outL, ch0out) := altChannelProcess sampleRate s ch0 inL
    let (outR, ch1out) := altChannelProcess sampleRate s ch1 inR
    ((outL, outR), (ch0out, ch1out))

/-! ## Spatial processor (spatial-processor.worklet.ts)

Per-sample stateful binaural processing.  Delay lines are functions from
indices, cursors advance modulo the line length; read positions of the form
(writePos - d + len) % len are written (writePos + len - d) % len in
natural-number arithmetic (the delay d never exceeds the line length in the
operating range of the processor).  The one-pole filters keep their y1
state per channel. -/

/-- Mutable state of SpatialProcessor. -/
structure SpatState where
  itdBufferL : ℕ → ℝ
  itdBufferR : ℕ → ℝ
  itdWritePos : ℕ
  ild0 : ℝ
  ild1 : ℝ
  cf0 : ℝ
  cf1 : ℝ
  cfDelay0 : ℕ → ℝ
  cfDelay1 : ℕ → ℝ
  cfWritePos : ℕ
  refl0 : ℕ → ℝ
  refl1 : ℕ → ℝ
  refl2 : ℕ → ℝ
  refl3 : ℕ → ℝ
  reflWritePos : ℕ
  pinna0 : ℕ → ℝ
  pinna1 : ℕ → ℝ
  pinnaWritePos : ℕ
  surDelayL : ℕ → ℝ
  surDelayR : ℕ → ℝ
  surWritePos : ℕ
  sur0 : ℝ
  sur1 : ℝ
  sur2 : ℝ
  sur3 : ℝ

/-- The zeroed state built by the constructor. -/
def SpatState.zero : SpatState :=
  { itdBufferL := fun _ => 0
    itdBufferR := fun _ => 0
    itdWritePos := 0
    ild0 := 0
    ild1 := 0
    cf0 := 0
    cf1 := 0
    cfDelay0 := fun _ => 0
    cfDelay1 := fun _ => 0
    cfWritePos := 0
    refl0 := fun _ => 0
    refl1 := fun _ => 0
    refl2 := fun _ => 0
    refl3 := fun _ => 0
    reflWritePos := 0
    pinna0 := fun _ => 0
    pinna1 := fun _ => 0
    pinnaWritePos := 0
    surDelayL := fun _ => 0
    surDelayR := fun _ => 0
    surWritePos := 0
    sur0 := 0
    sur1 := 0
    sur2 := 0
    sur3 := 0 }

/-- Coefficient of the one-pole low-pass filters:
alpha = dt / (rc + dt) with rc = 1 / (2π cutoff) and dt = 1 / sampleRate. -/
noncomputable def lowpassAlpha (sampleRate cutoffHz : ℝ) : ℝ :=
  let rc := 1 / (2 * Real.pi * cutoffHz)
  let dt := 1 / sampleRate
  dt / (rc + dt)

/-- One application of a one-pole low-pass: the new y1, which is also the
output (output = y1 + alpha (sample - y1)). -/
noncomputable def onePole (alpha y1 sample : ℝ) : ℝ :=
  y1 + alpha * (sample - y1)

/-- SpatialProcessor.applyITD: write both samples, read back with a
pan-dependent delay on the far side, advance the cursor. -/
noncomputable def applyITD (st : SpatState) (left right panAmount : ℝ) :
    (ℝ × ℝ) × SpatState :=
  let maxDelaySamples : ℕ := min 32 (48 - 1)
  let delaySamples : ℕ := (⌊|panAmount| * (maxDelaySamples : ℝ)⌋).toNat
  let bufL := upd st.itdBufferL st.itdWritePos left
  let bufR := upd st.itdBufferR st.itdWritePos right
  let readPosL := (st.itdWritePos + 48 - (if 0 < panAmount then delaySamples else 0)) % 48
  let readPosR := (st.itdWritePos + 48 - (if panAmount < 0 then delaySamples else 0)) % 48
  ((bufL readPosL, bufR readPosR),
   { st with
       itdBufferL := bufL
       itdBufferR := bufR
       itdWritePos := (st.itdWritePos + 1) % 48 })

/-- SpatialProcessor.applyILD: attenuate high frequencies of the far-side
channel through the per-channel one-pole state. -/
noncomputable def applyILD (sampleRate : ℝ) (st : SpatState)
    (left right panAmount : ℝ) : (ℝ × ℝ) × SpatState :=
  let ildAmount := |panAmount| * 0.4
  if 0 < panAmount then
    let alpha := lowpassAlpha sampleRate (3000 + (1 - ildAmount) * 12000)
    let filtered := onePole alpha st.ild0 left
    ((left * (1 - ildAmount) + filtered * ildAmount, right),
     { st with ild0 := filtered })
  else if panAmount < 0 then
    let alpha := lowpassAlpha sampleRate (3000 + (1 - ildAmount) * 12000)
    let filtered := onePole alpha st.ild1 right
    ((left, right * (1 - ildAmount) + filtered * ildAmount),
     { st with ild1 := filtered })
  else ((left, right), st)

/-- SpatialProcessor.applyCrossfeed: short delay, 700 Hz low-pass, mixed at
low gain into the opposite channel. -/
noncomputable def applyCrossfeed (sampleRate : ℝ) (st : SpatState)
    (left right amount : ℝ) : (ℝ × ℝ) × SpatState :=
  let d0 := upd st.cfDelay0 st.cfWritePos left
  let d1 := upd st.cfDelay1 st.cfWritePos right
  let readPos := (st.cfWritePos + 40 - 20) % 40
  let delayedL := d0 readPos
  let delayedR := d1 readPos
  let alpha := lowpassAlpha sampleRate 700
  let f0 := onePole alpha st.cf0 delayedR
  let f1 := onePole alpha st.cf1 delayedL
  let crossL := f0 * amount * 0.15
  let crossR := f1 * amount * 0.15
  ((left + crossL, right + crossR),
   { st with
       cfDelay0 := d0
       cfDelay1 := d1
       cfWritePos := (st.cfWritePos + 1) % 40
       cf0 := f0
       cf1 := f1 })

/-- SpatialProcessor.applyEarlyReflections: four delay lines fed from the
mono sum, read at mode-dependent delays, cross-panned into the outputs. -/
noncomputable def applyEarlyReflections (lowLatencyMode : Bool)
    (st : SpatState) (left right depth : ℝ) : (ℝ × ℝ) × SpatState :=
  let delay0 : ℕ := if lowLatencyMode then 120 else 240
  let delay1 : ℕ := if lowLatencyMode then 240 else 520
  let delay2 : ℕ := if lowLatencyMode then 380 else 880
  let delay3 : ℕ := if lowLatencyMode then 520 else 1200
  let mono := (left + right) * 0.5
  let r0 := upd st.refl0 st.reflWritePos mono
  let r1 := upd st.refl1 st.reflWritePos mono
  let r2 := upd st.refl2 st.reflWritePos mono
  let r3 := upd st.refl3 st.reflWritePos mono
  let s0 := r0 ((st.reflWritePos + 2400 - delay0) % 2400) * 0.35 * depth
  let s1 := r1 ((st.reflWritePos + 2400 - delay1) % 2400) * 0.25 * depth
  let s2 := r2 ((st.reflWritePos + 2400 - delay2) % 2400) * 0.18 * depth
  let s3 := r3 ((st.reflWritePos + 2400 - delay3) % 2400) * 0.12 * depth
  let reflL := s0 + s1 * 0.6 + s2 + s3 * 0.6
  let reflR := s0 * 0.6 + s1 + s2 * 0.6 + s3
  ((left + reflL, right + reflR),
   { st with
       refl0 := r0
       refl1 := r1
       refl2 := r2
       refl3 := r3
       reflWritePos := (st.reflWritePos + 1) % 2400 })

/-- SpatialProcessor.applyHeightCue: first-difference high-frequency
extraction plus an 18-sample comb, reintroduced scaled by the height. -/
noncomputable def applyHeightCue (st : SpatState)
    (left right height : ℝ) : (ℝ × ℝ) × SpatState :=
  let prevL := st.pinna0 ((st.pinnaWritePos + 36 - 1) % 36)
  let prevR := st.pinna1 ((st.pinnaWritePos + 36 - 1) % 36)
  let highL := left - prevL
  let highR := right - prevR
  let p0 := upd st.pinna0 st.pinnaWritePos left
  let p1 := upd st.pinna1 st.pinnaWritePos right
  let combReadPos := (st.pinnaWritePos + 36 - 18) % 36
  let combL := p0 combReadPos
  let combR := p1 combReadPos
  let heightAmount := height * 0.2
  ((left + (highL * 0.3 + combL * 0.1) * heightAmount,
    right + (highR * 0.3 + combR * 0.1) * heightAmount),
   { st with
       pinna0 := p0
       pinna1 := p1
       pinnaWritePos := (st.pinnaWritePos + 1) % 36 })

/-- SpatialProcessor.processStereoWide: mid/side widening, a virtual pan
from the side signal, then ITD, ILD and crossfeed. -/
noncomputable def processStereoWide (s : SpatialSettings) (sampleRate : ℝ)
    (st : SpatState) (left right : ℝ) : (ℝ × ℝ) × SpatState :=
  let width := s.width / 100
  let hrtfScale := s.hrtfIntensity / 8
  let mid := (left + right) * 0.5
  let side := (left - right) * 0.5
  let enhancedSide := side * (1 + width * hrtfScale)
  let outL := mid + enhancedSide
  let outR := mid - enhancedSide
  let panAmount := Real.tanh (side * 3) * width * hrtfScale
  let itd := applyITD st outL outR (panAmount * 0.5)
  let ild := applyILD sampleRate itd.2 itd.1.1 itd.1.2 (panAmount * 0.3)
  applyCrossfeed sampleRate ild.2 ild.1.1 ild.1.2 ((1 - width * 0.5) * hrtfScale)

/-- SpatialProcessor.processSurround: virtual 7.1 downmix over the surround
delay lines plus the stereo-wide front, mixed binaurally and sent through
the early reflections.  The one-pole state with index 0 is used twice per
sample (surround left, then LFE), exactly as in the source. -/
noncomputable def processSurround (s : SpatialSettings) (sampleRate : ℝ)
    (st : SpatState) (left right : ℝ) : (ℝ × ℝ) × SpatState :=
  let depth := s.depth / 100
  let hrtfScale := s.hrtfIntensity / 8
  let st0 : SpatState :=
    { st with
        surDelayL := upd st.surDelayL st.surWritePos left
        surDelayR := upd st.surDelayR st.surWritePos right }
  let front := processStereoWide s sampleRate st0 left right
  let st1 := front.2
  let center := (left + right) * 0.3 * depth
  let surroundDelay : ℕ := if s.lowLatencyMode then 720 else 1200
  let surroundReadPos := (st1.surWritePos + 4800 - surroundDelay) % 4800
  let a6000 := lowpassAlpha sampleRate 6000
  let f0 := onePole a6000 st1.sur0 (st1.surDelayR surroundReadPos)
  let surroundL := f0 * 0.5 * depth * hrtfScale
  let f1 := onePole a6000 st1.sur1 (st1.surDelayL surroundReadPos)
  let surroundR := f1 * 0.5 * depth * hrtfScale
  let backDelay : ℕ := if s.lowLatencyMode then 1680 else 2400
  let backReadPos := (st1.surWritePos + 4800 - backDelay) % 4800
  let a4000 := lowpassAlpha sampleRate 4000
  let f2 := onePole a4000 st1.sur2 (st1.surDelayL backReadPos)
  let backL := f2 * 0.35 * depth * hrtfScale
  let f3 := onePole a4000 st1.sur3 (st1.surDelayR backReadPos)
  let backR := f3 * 0.35 * depth * hrtfScale
  let mono := (left + right) * 0.5
  let a80 := lowpassAlpha sampleRate 80
  let f0b := onePole a80 f0 mono
  let lfe := f0b * 0.2 * depth
  let st2 : SpatState :=
    { st1 with
        surWritePos := (st1.surWritePos + 1) % 4800
        sur0 := f0b
        sur1 := f1
        sur2 := f2
        sur3 := f3 }
  let outL := front.1.1 * 0.7 + center + (surroundL * 0.8 - surroundR * 0.2)
    + (backL * 0.6 - backR * 0.3) + lfe
  let outR := front.1.2 * 0.7 + center + (surroundR * 0.8 - surroundL * 0.2)
    + (backR * 0.6 - backL * 0.3) + lfe
  applyEarlyReflections s.lowLatencyMode st2 outL outR (depth * hrtfScale * 0.5)

/-- SpatialProcessor.processAtmos: the surround mix followed by the height
cue. -/
noncomputable def processAtmos (s : SpatialSettings) (sampleRate : ℝ)
    (st : SpatState) (left right : ℝ) : (ℝ × ℝ) × SpatState :=
  let height := s.height / 100
  let hrtfScale := s.hrtfIntensity / 8
  let sur := processSurround s sampleRate st left right
  applyHeightCue sur.2 sur.1.1 sur.1.2 (height * hrtfScale)

/-- The mode switch in the per-sample loop of SpatialProcessor.process;
the default branch passes the samples through. -/
noncomputable def spatialStep (s : SpatialSettings) (sampleRate : ℝ)
    (st : SpatState) (left right : ℝ) : (ℝ × ℝ) × SpatState :=
  match s.mode with
  | SpatialMode.stereoWide => processStereoWide s sampleRate st left right
  | SpatialMode.surround71 => processSurround s sampleRate st left right
  | SpatialMode.atmos => processAtmos s sampleRate st left right
  | SpatialMode.off => ((left, right), st)

/-- Clipping guard at the end of the per-sample loop:
Math.max(-1, Math.min(1, x)). -/
noncomputable def clampSample (x : ℝ) : ℝ := max (-1) (min 1 x)

/-- The per-sample loop of SpatialProcessor.process over a block of stereo
samples, clamping every output sample. -/
noncomputable def spatialLoop (s : SpatialSettings) (sampleRate : ℝ) :
    SpatState → List (ℝ × ℝ) → List (ℝ × ℝ) × SpatState
  | st, [] => ([], st)
  | st, (l, r) :: rest =>
    let step := spatialStep s sampleRate st l r
    let out := spatialLoop s sampleRate step.2 rest
    ((clampSample step.1.1, clampSample step.1.2) :: out.1, out.2)

/-- SpatialProcessor.process on a stereo block: bypass copy when disabled
or in mode off, otherwise the clamped per-sample loop. -/
noncomputable def spatialProcess (s : SpatialSettings) (sampleRate : ℝ)
    (st : SpatState) (inL inR : List ℝ) : (List ℝ × List ℝ) × SpatState :=
  if ¬ s.enabled ∨ s.mode = SpatialMode.off then ((inL, inR), st)
  else
    let out := spatialLoop s sampleRate st (inL.zip inR)
    ((out.1.map Prod.fst, out.1.map Prod.snd), out.2)

/-! ## The whole worklet chain

The orchestrator wires source → upsampler → spectral extender → spatial
processor (buildProcessingChain); the chain of the three stage process
functions on one stereo block. -/

/-- States of the three stages. -/
structure ChainState where
  ups : UpsState
  ext : ExtState
  spat : SpatState

/-- One block through the three stages in pipeline order. -/
noncomputable def chainProcess (us : UpsamplerSettings) (es : ExtSettings)
    (ss : SpatialSettings) (sampleRate : ℝ) (st : ChainState)
    (inL inR : List ℝ) : (List ℝ × List ℝ) × ChainState :=
  let u := upsamplerProcess us sampleRate st.ups inL inR
  let e := extProcess sampleRate es st.ext u.1.1 u.1.2
  let sp := spatialProcess ss sampleRate st.spat e.1.1 e.1.2
  (sp.1, { ups := u.2, ext := e.2, spat := sp.2 })

/-! ## Concrete sample data used by witnesses -/

/-- A pipeline state with the given context and settings and everything
else cleared, used to state properties of the latency estimator. -/
def mkPipelineState (ctx : Option CtxInfo) (s : Option AudioSettingsQ) :
    PipelineState :=
  { audioContext := ctx
    sourceNode := false
    upsamplerNode := false
    spectralExtenderNode := false
    spatialNode := false
    makeupGainNode := false
    gainNode := false
    analyserNode := false
    frequencyData := false
    isConnected := false
    currentElement := none
    settings := s
    gpuDevice := false
    gpuActive := false
    workletsLoaded := false }

/-- A sample audio context record. -/
def sampleCtx : CtxInfo := { sampleRate := 48000, baseLatency := 0, outputLatency := 0 }

/-- Sample settings with hi-res upsampling and frequency extension on and
spatial audio in atmos mode. -/
def sampleSettings : AudioSettingsQ :=
  { enabled := true
    hiResEnabled := true
    spatialEnabled := true
    useGPU := false
    lowLatencyMode := false
    masterVolume := 100
    upsampling := { enabled := true, targetSampleRate := 96000, quality := Quality.sinc }
    frequencyExtension := { enabled := true, maxFrequency := 24000, intensity := 30 }
    spatialAudio :=
      { enabled := true, mode := SpatialMode.atmos, width := 50, depth := 30
        height := 20, hrtfIntensity := 6 } }

/-- A pipeline state connected to element 0 with a full chain wired. -/
def connectedState : PipelineState :=
  { audioContext := some sampleCtx
    sourceNode := true
    upsamplerNode := true
    spectralExtenderNode := true
    spatialNode := true
    makeupGainNode := true
    gainNode := true
    analyserNode := true
    frequencyData := true
    isConnected := true
    currentElement := some 0
    settings := some sampleSettings
    gpuDevice := false
    gpuActive := false
    workletsLoaded := true }

/-- The zeroed upsampler history (two 32-entry channels). -/
def UpsState.zero : UpsState :=
  { prev0 := List.replicate 32 0, prev1 := List.replicate 32 0 }

/-- The zeroed chain state. -/
def ChainState.zero : ChainState :=
  { ups := UpsState.zero, ext := ExtState.zero, spat := SpatState.zero }

/-- Upsampler settings with the stage disabled. -/
noncomputable def disabledUpsSettings : UpsamplerSettings :=
  { enabled := false, targetSampleRate := 96000
    quality := Quality.sinc, lowLatencyMode := false }

/-- Extender settings with the stage disabled. -/
noncomputable def disabledExtSettings : ExtSettings :=
  { enabled := false, maxFrequency := 24000, intensity := 50 }

/-- Spatial settings with the stage disabled. -/
noncomputable def disabledSpatialSettings : SpatialSettings :=
  { enabled := false, mode := SpatialMode.stereoWide, width := 50, depth := 30
    height := 20, hrtfIntensity := 6, lowLatencyMode := false }

/-- Spatial settings for the stereo-wide scenario: enabled, width 100. -/
noncomputable def wideSpatialSettings : SpatialSettings :=
  { enabled := true, mode := SpatialMode.stereoWide, width := 100, depth := 30
    height := 20, hrtfIntensity := 6, lowLatencyMode := false }

/-- Alternate extender settings: enabled with intensity 0. -/
noncomputable def altZeroIntensitySettings : ExtSettings :=
  { enabled := true, maxFrequency := 24000, intensity := 0 }

/-! # Theorems -/

/-! ## Claim C4: connect is idempotent on the same connected source -/

/-- C4: calling connect again with the same source element while already
connected returns immediately with no error and leaves the pipeline state
(connection state, chain topology, buffers) exactly unchanged. -/
theorem connect_same_element_noop (env : ConnectEnv) (st : PipelineState)
    (el : ℕ) (hc : st.isConnected = true) (he : st.currentElement = some el) :
    connectRun env st el = (st, none) := by
  simp [connectRun, hc, he]

/-- Witness for C4 at a concrete connected state. -/
theorem connect_same_element_noop_witness :
    connectRun ⟨true, true, sampleCtx, true⟩ connectedState 0
      = (connectedState, none) :=
  connect_same_element_noop ⟨true, true, sampleCtx, true⟩ connectedState 0
    rfl rfl

/-! ## Claim C5: failure handling of connect -/

/-- Counterexample to C5 as stated: the extension-context validity check of
connect throws before any cleanup runs, so a connect attempt on a new
element while connected to element 0 surfaces an error while the previous
connection (nodes, context, element, flags) is left fully wired, not
reverted to Disconnected. -/
theorem connect_error_leaves_connected_state :
    (connectRun ⟨false, true, sampleCtx, true⟩ connectedState 1).2
        = some ConnectError.contextInvalid
      ∧ ¬ FullyDisconnected
          (connectRun ⟨false, true, sampleCtx, true⟩ connectedState 1).1 := by
  constructor
  · rfl
  · intro h
    have : connectedState.isConnected = false := by
      have h1 : (connectRun ⟨false, true, sampleCtx, true⟩ connectedState 1).1
          = connectedState := rfl
      exact h1 ▸ h.2.2.2.2.2.2.2.2.2.1
    simp [connectedState] at this

/-- C5 amended: when the failure arises inside the try block (that is, the
extension-context precondition passed), connect reverts the orchestrator to
the fully Disconnected state before surfacing the error: every node
reference, the audio context, the current element and all flags are reset. -/
theorem connect_failure_reverts_to_disconnected (env : ConnectEnv)
    (st : PipelineState) (el : ℕ) (e : ConnectError)
    (hv : env.contextValid = true)
    (he : (connectRun env st el).2 = some e) :
    FullyDisconnected (connectRun env st el).1 := by
  by_cases hg : st.currentElement = some el ∧ st.isConnected
  · simp [connectRun, hg] at he
  · by_cases hb : env.buildOk = true
    · simp [connectRun, hg, hv, hb] at he
    · have hrun : connectRun env st el
          = (disconnectRun (disconnectRun st), some ConnectError.buildFailed) := by
        simp [connectRun, hg, hv, hb]
      rw [hrun]
      exact ⟨rfl, rfl, rfl, rfl, rfl, rfl, rfl, rfl, rfl, rfl, rfl, rfl, rfl, rfl⟩

/-- Witness for the amended C5: a failing build on a connected state ends
fully disconnected. -/
theorem connect_failure_reverts_to_disconnected_witness :
    FullyDisconnected
      (connectRun ⟨true, false, sampleCtx, true⟩ connectedState 1).1 :=
  connect_failure_reverts_to_disconnected ⟨true, false, sampleCtx, true⟩
    connectedState 1 ConnectError.buildFailed rfl rfl

/-! ## Claim C6: latency monotone in the low-latency flag -/

/-- C6: for a fixed otherwise-identical configuration (with the depth and
height sliders in their 0-100 range and a positive sample rate), disabling
low-latency mode never decreases the estimated latency, both for the
orchestrator estimator and for the popup estimator. -/
theorem latency_monotone_lowLatency (ctx : CtxInfo) (s : AudioSettingsQ)
    (hd : 0 ≤ s.spatialAudio.depth) (hh : 0 ≤ s.spatialAudio.height)
    (hsr : 0 < ctx.sampleRate) :
    calcProcessingLatency (mkPipelineState (some ctx) (some (withLowLatency s true)))
        ≤ calcProcessingLatency (mkPipelineState (some ctx) (some (withLowLatency s false)))
      ∧ calcExpectedLatency (withLowLatency s true)
        ≤ calcExpectedLatency (withLowLatency s false) := by
  have hsamples : latencySamples (withLowLatency s true)
      ≤ latencySamples (withLowLatency s false) := by
    simp only [latencySamples, withLowLatency]
    split_ifs <;> simp_all <;> nlinarith
  constructor
  · show (ctx.baseLatency + ctx.outputLatency) * 1000
        + latencySamples (withLowLatency s true) / ctx.sampleRate * 1000
      ≤ (ctx.baseLatency + ctx.outputLatency) * 1000
        + latencySamples (withLowLatency s false) / ctx.sampleRate * 1000
    gcongr
  · show latencySamples (withLowLatency s true) / 48000 * 1000
      ≤ latencySamples (withLowLatency s false) / 48000 * 1000
    gcongr

/-- Witness for C6 at the sample settings and context. -/
theorem latency_monotone_lowLatency_witness :
    calcProcessingLatency (mkPipelineState (some sampleCtx)
        (some (withLowLatency sampleSettings true)))
      ≤ calcProcessingLatency (mkPipelineState (some sampleCtx)
        (some (withLowLatency sampleSettings false))) :=
  (latency_monotone_lowLatency sampleCtx sampleSettings (by decide) (by decide)
    (by decide)).1

/-! ## Claim C7: the latency estimate and the pipeline state -/

/-- C7 amended: the latency estimate reads only the configuration and the
audio context; it is the same for any two pipeline states agreeing on
those, in particular whether or not any stage node has been constructed.
(Before a connection exists the estimator does depend on the missing
context: it returns 0, see the counterexample.) -/
theorem latency_ignores_stage_nodes (stA stB : PipelineState)
    (hc : stA.audioContext = stB.audioContext)
    (hs : stA.settings = stB.settings) :
    calcProcessingLatency stA = calcProcessingLatency stB := by
  unfold calcProcessingLatency
  rw [hc, hs]

/-- Witness for the amended C7: a state with every stage node constructed
and one with none agree on the estimate. -/
theorem latency_ignores_stage_nodes_witness :
    calcProcessingLatency connectedState
      = calcProcessingLatency
          (mkPipelineState (some sampleCtx) (some sampleSettings)) :=
  latency_ignores_stage_nodes connectedState
    (mkPipelineState (some sampleCtx) (some sampleSettings)) rfl rfl

/-- Counterexample to C7 as stated: before any connection exists the
audio context is null and calculateProcessingLatency returns 0, while the
same configuration after connecting yields a positive estimate, so the
estimate is not a function of the configuration alone and cannot be shown
before connecting. -/
theorem latency_before_connection_differs :
    (mkPipelineState none (some sampleSettings)).settings
        = (mkPipelineState (some sampleCtx) (some sampleSettings)).settings
      ∧ calcProcessingLatency (mkPipelineState none (some sampleSettings))
        ≠ calcProcessingLatency
            (mkPipelineState (some sampleCtx) (some sampleSettings)) := by
  constructor
  · rfl
  · have h1 : calcProcessingLatency (mkPipelineState none (some sampleSettings)) = 0 := rfl
    have h2 : calcProcessingLatency
        (mkPipelineState (some sampleCtx) (some sampleSettings)) = 139 / 6 := by
      norm_num [calcProcessingLatency, mkPipelineState, latencySamples,
        sampleSettings, sampleCtx]
    rw [h1, h2]
    norm_num

/-! ## Claim C10: updateSettings messages merge field-wise -/

/-- C10: for every updateSettings message delivered to any of the three
worklets, each settings field absent from the message keeps its previous
value and each field present takes the value of the message. -/
theorem worklet_settings_merge
    (uold : UpsamplerSettings) (um : UpsamplerMsg)
    (hu : um.type = "updateSettings")
    (eold : ExtSettings) (em : ExtMsg)
    (he : em.type = "updateSettings")
    (sold : SpatialSettings) (sm : SpatialMsg)
    (hs : sm.type = "updateSettings") :
    ((um.enabled = none → (upsamplerOnMessage uold um).enabled = uold.enabled)
      ∧ (∀ v, um.enabled = some v → (upsamplerOnMessage uold um).enabled = v)
      ∧ (um.targetSampleRate = none →
          (upsamplerOnMessage uold um).targetSampleRate = uold.targetSampleRate)
      ∧ (∀ v, um.targetSampleRate = some v →
          (upsamplerOnMessage uold um).targetSampleRate = v)
      ∧ (um.quality = none → (upsamplerOnMessage uold um).quality = uold.quality)
      ∧ (∀ v, um.quality = some v → (upsamplerOnMessage uold um).quality = v)
      ∧ (um.lowLatencyMode = none →
          (upsamplerOnMessage uold um).lowLatencyMode = uold.lowLatencyMode)
      ∧ (∀ v, um.lowLatencyMode = some v →
          (upsamplerOnMessage uold um).lowLatencyMode = v))
    ∧ ((em.enabled = none → (extOnMessage eold em).enabled = eold.enabled)
      ∧ (∀ v, em.enabled = some v → (extOnMessage eold em).enabled = v)
      ∧ (em.maxFrequency = none →
          (extOnMessage eold em).maxFrequency = eold.maxFrequency)
      ∧ (∀ v, em.maxFrequency = some v → (extOnMessage eold em).maxFrequency = v)
      ∧ (em.intensity = none → (extOnMessage eold em).intensity = eold.intensity)
      ∧ (∀ v, em.intensity = some v → (extOnMessage eold em).intensity = v))
    ∧ ((sm.enabled = none → (spatialOnMessage sold sm).enabled = sold.enabled)
      ∧ (∀ v, sm.enabled = some v → (spatialOnMessage sold sm).enabled = v)
      ∧ (sm.mode = none → (spatialOnMessage sold sm).mode = sold.mode)
      ∧ (∀ v, sm.mode = some v → (spatialOnMessage sold sm).mode = v)
      ∧ (sm.width = none → (spatialOnMessage sold sm).width = sold.width)
      ∧ (∀ v, sm.width = some v → (spatialOnMessage sold sm).width = v)
      ∧ (sm.depth = none → (spatialOnMessage sold sm).depth = sold.depth)
      ∧ (∀ v, sm.depth = some v → (spatialOnMessage sold sm).depth = v)
      ∧ (sm.height = none → (spatialOnMessage sold sm).height = sold.height)
      ∧ (∀ v, sm.height = some v → (spatialOnMessage sold sm).height = v)
      ∧ (sm.hrtfIntensity = none →
          (spatialOnMessage sold sm).hrtfIntensity = sold.hrtfIntensity)
      ∧ (∀ v, sm.hrtfIntensity = some v →
          (spatialOnMessage sold sm).hrtfIntensity = v)
      ∧ (sm.lowLatencyMode = none →
          (spatialOnMessage sold sm).lowLatencyMode = sold.lowLatencyMode)
      ∧ (∀ v, sm.lowLatencyMode = some v →
          (spatialOnMessage sold sm).lowLatencyMode = v)) := by
  refine ⟨⟨?_, ?_, ?_, ?_, ?_, ?_, ?_, ?_⟩, ⟨?_, ?_, ?_, ?_, ?_, ?_⟩,
    ⟨?_, ?_, ?_, ?_, ?_, ?_, ?_, ?_, ?_, ?_, ?_, ?_, ?_, ?_⟩⟩ <;>
    first
      | (intro h; simp [upsamplerOnMessage, extOnMessage, spatialOnMessage,
          hu, he, hs, h])
      | (intro v h; simp [upsamplerOnMessage, extOnMessage, spatialOnMessage,
          hu, he, hs, h])

/-- Witness for C10: a concrete merge in each worklet, with a mix of
present and absent fields. -/
theorem worklet_settings_merge_witness :
    (upsamplerOnMessage
        { enabled := true, targetSampleRate := 96000
          quality := Quality.sinc, lowLatencyMode := false }
        { type := "updateSettings", enabled := some false
          targetSampleRate := none, quality := none
          lowLatencyMode := some true }).enabled = false
      ∧ (upsamplerOnMessage
          { enabled := true, targetSampleRate := 96000
            quality := Quality.sinc, lowLatencyMode := false }
          { type := "updateSettings", enabled := some false
            targetSampleRate := none, quality := none
            lowLatencyMode := some true }).targetSampleRate = 96000
      ∧ (extOnMessage
          { enabled := false, maxFrequency := 24000, intensity := 50 }
          { type := "updateSettings", enabled := none
            maxFrequency := none, intensity := some 80 }).intensity = 80
      ∧ (spatialOnMessage
          { enabled := false, mode := SpatialMode.stereoWide, width := 50
            depth := 30, height := 20, hrtfIntensity := 6
            lowLatencyMode := false }
          { type := "updateSettings", enabled := some true, mode := none
            width := none, depth := none, height := none
            hrtfIntensity := none, lowLatencyMode := none }).mode
        = SpatialMode.stereoWide := by
  refine ⟨?_, ?_, ?_, ?_⟩
  · exact (worklet_settings_merge _ _ rfl
      { enabled := false, maxFrequency := 24000, intensity := 50 }
      { type := "updateSettings", enabled := none, maxFrequency := none
        intensity := some 80 } rfl
      { enabled := false, mode := SpatialMode.stereoWide, width := 50
        depth := 30, height := 20, hrtfIntensity := 6, lowLatencyMode := false }
      { type := "updateSettings", enabled := some true, mode := none
        width := none, depth := none, height := none, hrtfIntensity := none
        lowLatencyMode := none } rfl).1.2.1 false rfl
  · exact (worklet_settings_merge _ _ rfl
      { enabled := false, maxFrequency := 24000, intensity := 50 }
      { type := "updateSettings", enabled := none, maxFrequency := none
        intensity := some 80 } rfl
      { enabled := false, mode := SpatialMode.stereoWide, width := 50
        depth := 30, height := 20, hrtfIntensity := 6, lowLatencyMode := false }
      { type := "updateSettings", enabled := some true, mode := none
        width := none, depth := none, height := none, hrtfIntensity := none
        lowLatencyMode := none } rfl).1.2.2.1 rfl
  · exact (worklet_settings_merge
      { enabled := true, targetSampleRate := 96000, quality := Quality.sinc
        lowLatencyMode := false }
      { type := "updateSettings", enabled := some false
        targetSampleRate := none, quality := none
        lowLatencyMode := some true } rfl _ _ rfl
      { enabled := false, mode := SpatialMode.stereoWide, width := 50
        depth := 30, height := 20, hrtfIntensity := 6, lowLatencyMode := false }
      { type := "updateSettings", enabled := some true, mode := none
        width := none, depth := none, height := none, hrtfIntensity := none
        lowLatencyMode := none } rfl).2.1.2.2.2.2.2 80 rfl
  · exact (worklet_settings_merge
      { enabled := true, targetSampleRate := 96000, quality := Quality.sinc
        lowLatencyMode := false }
      { type := "updateSettings", enabled := some false
        targetSampleRate := none, quality := none
        lowLatencyMode := some true } rfl
      { enabled := false, maxFrequency := 24000, intensity := 50 }
      { type := "updateSettings", enabled := none, maxFrequency := none
        intensity := some 80 } rfl _ _ rfl).2.2.2.2.1 rfl

/-! ## Claim C1: disabled stages are exact bypasses -/

/-- Helper: the upsampler bypass branch. -/
theorem upsampler_bypass (s : UpsamplerSettings) (sr : ℝ) (st : UpsState)
    (inL inR : List ℝ) (h : s.enabled = false) :
    upsamplerProcess s sr st inL inR = ((inL, inR), st) := by
  simp [upsamplerProcess, h]

/-- Helper: the spectral extender bypass branch (disabled, or intensity at
most 0). -/
theorem ext_bypass (sr : ℝ) (s : ExtSettings) (st : ExtState)
    (inL inR : List ℝ) (h : s.enabled = false ∨ s.intensity ≤ 0) :
    extProcess sr s st inL inR = ((inL, inR), st) := by
  rcases h with h | h <;> simp [extProcess, h]

/-- Helper: the spatial processor bypass branch (disabled, or mode off). -/
theorem spatial_bypass (s : SpatialSettings) (sr : ℝ) (st : SpatState)
    (inL inR : List ℝ) (h : s.enabled = false ∨ s.mode = SpatialMode.off) :
    spatialProcess s sr st inL inR = ((inL, inR), st) := by
  rcases h with h | h <;> simp [spatialProcess, h]

/-- Helper: with every stage disabled the whole chain is the identity on
the block and on the states. -/
theorem chain_bypass (us : UpsamplerSettings) (es : ExtSettings)
    (ss : SpatialSettings) (sr : ℝ) (st : ChainState) (inL inR : List ℝ)
    (hu : us.enabled = false) (he : es.enabled = false)
    (hs : ss.enabled = false ∨ ss.mode = SpatialMode.off) :
    chainProcess us es ss sr st inL inR = ((inL, inR), st) := by
  unfold chainProcess
  simp only [upsampler_bypass us sr st.ups inL inR hu,
    ext_bypass sr es st.ext inL inR (Or.inl he),
    spatial_bypass ss sr st.spat inL inR hs]

/-- C1: a disabled stage (upsampler enabled false, spectral extender
enabled false, spatial processor enabled false or mode off) writes the
input block to the output unchanged on both channels, and with every stage
disabled the whole chain is the identity on the block. -/
theorem disabled_stages_bypass (us : UpsamplerSettings) (es : ExtSettings)
    (ss : SpatialSettings) (sr : ℝ) (ust : UpsState) (est : ExtState)
    (sst : SpatState) (cst : ChainState) (inL inR : List ℝ)
    (hu : us.enabled = false) (he : es.enabled = false)
    (hs : ss.enabled = false ∨ ss.mode = SpatialMode.off) :
    upsamplerProcess us sr ust inL inR = ((inL, inR), ust)
    ∧ extProcess sr es est inL inR = ((inL, inR), est)
    ∧ spatialProcess ss sr sst inL inR = ((inL, inR), sst)
    ∧ chainProcess us es ss sr cst inL inR = ((inL, inR), cst) :=
  ⟨upsampler_bypass us sr ust inL inR hu,
   ext_bypass sr es est inL inR (Or.inl he),
   spatial_bypass ss sr sst inL inR hs,
   chain_bypass us es ss sr cst inL inR hu he hs⟩

/-- Witness for C1 at concrete disabled settings and a concrete block. -/
theorem disabled_stages_bypass_witness :
    chainProcess disabledUpsSettings disabledExtSettings
        disabledSpatialSettings 48000 ChainState.zero [1, -1/2] [0, 1/4]
      = (([1, -1/2], [0, 1/4]), ChainState.zero) :=
  (disabled_stages_bypass disabledUpsSettings disabledExtSettings
    disabledSpatialSettings 48000 ChainState.zero.ups ChainState.zero.ext
    ChainState.zero.spat ChainState.zero [1, -1/2] [0, 1/4]
    rfl rfl (Or.inl rfl)).2.2.2

/-! ## Claim C2: the clipping invariant -/

/-- Helper: the clamp at the end of the spatial per-sample loop lands in
the valid sample range whatever its argument. -/
theorem clampSample_mem (x : ℝ) : -1 ≤ clampSample x ∧ clampSample x ≤ 1 :=
  ⟨le_max_left _ _, max_le (by norm_num) (min_le_left _ _)⟩

/-- Helper: every pair emitted by the spatial per-sample loop has both
components in the valid sample range. -/
theorem spatialLoop_clamped (s : SpatialSettings) (sr : ℝ) :
    ∀ (xs : List (ℝ × ℝ)) (st : SpatState),
      ∀ p ∈ (spatialLoop s sr st xs).1,
        (-1 ≤ p.1 ∧ p.1 ≤ 1) ∧ (-1 ≤ p.2 ∧ p.2 ≤ 1) := by
  intro xs
  induction xs with
  | nil => intro st p hp; simp [spatialLoop] at hp
  | cons hd tl ih =>
    intro st p hp
    rw [show hd = (hd.1, hd.2) from rfl] at hp
    simp only [spatialLoop, List.mem_cons] at hp
    rcases hp with hp | hp
    · subst hp
      exact ⟨clampSample_mem _, clampSample_mem _⟩
    · exact ih _ p hp

/-- C2 amended: when the spatial stage actually processes (enabled and a
mode other than off, on a stereo block), every sample it writes to either
output channel lies in the interval from -1 to 1; on the bypass paths the
stages copy samples through unchanged, so the chain output satisfies the
bound only when the input already does (see the counterexample). -/
theorem spatial_output_clamped (s : SpatialSettings) (sr : ℝ)
    (st : SpatState) (inL inR : List ℝ) (hen : s.enabled = true)
    (hm : s.mode ≠ SpatialMode.off) :
    (∀ x ∈ (spatialProcess s sr st inL inR).1.1, -1 ≤ x ∧ x ≤ 1)
    ∧ (∀ x ∈ (spatialProcess s sr st inL inR).1.2, -1 ≤ x ∧ x ≤ 1) := by
  have hcond : ¬ (¬ s.enabled ∨ s.mode = SpatialMode.off) := by
    simp [hen, hm]
  constructor
  · intro x hx
    simp only [spatialProcess, if_neg hcond, List.mem_map] at hx
    obtain ⟨p, hp, hpx⟩ := hx
    exact hpx ▸ (spatialLoop_clamped s sr _ st p hp).1
  · intro x hx
    simp only [spatialProcess, if_neg hcond, List.mem_map] at hx
    obtain ⟨p, hp, hpx⟩ := hx
    exact hpx ▸ (spatialLoop_clamped s sr _ st p hp).2

/-- Helper: the spatial per-sample loop emits one pair per input pair. -/
theorem spatialLoop_length (s : SpatialSettings) (sr : ℝ) :
    ∀ (xs : List (ℝ × ℝ)) (st : SpatState),
      (spatialLoop s sr st xs).1.length = xs.length := by
  intro xs
  induction xs with
  | nil => intro st; rfl
  | cons hd tl ih =>
    intro st
    rw [show hd = (hd.1, hd.2) from rfl]
    simp only [spatialLoop, List.length_cons]
    rw [ih]

/-- Witness for the amended C2: the first output sample of the stereo-wide
stage on a concrete block with an out-of-range input sample is in range. -/
theorem spatial_output_clamped_witness :
    -1 ≤ (spatialProcess wideSpatialSettings 48000 SpatState.zero
        [2, 0] [0, 0]).1.1.getD 0 0
      ∧ (spatialProcess wideSpatialSettings 48000 SpatState.zero
        [2, 0] [0, 0]).1.1.getD 0 0 ≤ 1 := by
  have hcond : ¬ (¬ wideSpatialSettings.enabled
      ∨ wideSpatialSettings.mode = SpatialMode.off) := by
    simp [wideSpatialSettings]
  have hlen : (spatialProcess wideSpatialSettings 48000 SpatState.zero
      [2, 0] [0, 0]).1.1.length = 2 := by
    simp only [spatialProcess, if_neg hcond, List.length_map]
    rw [spatialLoop_length]
    rfl
  have hmem : (spatialProcess wideSpatialSettings 48000 SpatState.zero
        [2, 0] [0, 0]).1.1.getD 0 0
      ∈ (spatialProcess wideSpatialSettings 48000 SpatState.zero
        [2, 0] [0, 0]).1.1 := by
    rw [List.getD_eq_getElem _ _ (by rw [hlen]; norm_num)]
    exact List.getElem_mem _
  exact (spatial_output_clamped wideSpatialSettings 48000 SpatState.zero
    [2, 0] [0, 0] rfl (by simp [wideSpatialSettings])).1 _ hmem

/-- Counterexample to C2 as stated: with every stage disabled (a legal
configuration) the chain copies the finite input sample 2 straight to the
output, so not every output sample lies within the range from -1 to 1. -/
theorem chain_output_not_clamped :
    (chainProcess disabledUpsSettings disabledExtSettings
        disabledSpatialSettings 48000 ChainState.zero [2] [2]).1.1 = [2]
    ∧ ¬ (∀ x ∈ (chainProcess disabledUpsSettings disabledExtSettings
        disabledSpatialSettings 48000 ChainState.zero [2] [2]).1.1,
          -1 ≤ x ∧ x ≤ 1) := by
  have hrun : chainProcess disabledUpsSettings disabledExtSettings
      disabledSpatialSettings 48000 ChainState.zero [2] [2]
      = (([2], [2]), ChainState.zero) :=
    chain_bypass _ _ _ _ _ _ _ rfl rfl (Or.inl rfl)
  constructor
  · rw [hrun]
  · rw [hrun]
    intro h
    have := (h 2 (by simp)).2
    norm_num at this

/-! ## Claim C3: zero extension intensity and passthrough -/

/-- C3 amended: in the main FFT worklet an intensity of 0 produces
bit-for-bit passthrough whatever the enabled flag (the bypass tests
intensity at most 0 alongside not-enabled); the alternate variant
bypasses only when disabled — with enabled true its FFT pipeline runs even
at intensity 0 (only the extendSpectrum step is skipped inside
processFrame), so its output is not bit-for-bit the input. -/
theorem ext_zero_intensity_passthrough (sr : ℝ) (s : ExtSettings)
    (st : ExtState) (a0 a1 : AltChanState) (inL inR : List ℝ)
    (h0 : s.intensity = 0) (salt : ExtSettings)
    (hoff : salt.enabled = false) :
    extProcess sr s st inL inR = ((inL, inR), st)
    ∧ altProcess sr salt a0 a1 inL inR = ((inL, inR), (a0, a1)) := by
  constructor
  · exact ext_bypass sr s st inL inR (Or.inr (le_of_eq h0))
  · simp [altProcess, hoff]

/-- Witness for the amended C3 at a concrete block: the main worklet is
enabled with intensity 0 and copies the block. -/
theorem ext_zero_intensity_passthrough_witness :
    extProcess 48000 altZeroIntensitySettings ExtState.zero [1, 1/2] [0, -1]
      = (([1, 1/2], [0, -1]), ExtState.zero) :=
  (ext_zero_intensity_passthrough 48000 altZeroIntensitySettings
    ExtState.zero AltChanState.zero AltChanState.zero [1, 1/2] [0, -1] rfl
    disabledExtSettings rfl).1

/-- Counterexample to C3 as stated: the alternate variant with enabled
true and intensity 0 does not copy the block bit-for-bit; on the first
one-sample block it outputs 0 for input 1 (the sample enters the input
ring and the output is read from the still-empty output ring). -/
theorem alt_zero_intensity_not_passthrough :
    (altProcess 48000 altZeroIntensitySettings AltChanState.zero
        AltChanState.zero [1] [1]).1.1 = [0]
    ∧ (altProcess 48000 altZeroIntensitySettings AltChanState.zero
        AltChanState.zero [1] [1]).1.1 ≠ [1] := by
  have h : (altProcess 48000 altZeroIntensitySettings AltChanState.zero
      AltChanState.zero [1] [1]).1.1 = [0] := by
    norm_num [altProcess, altZeroIntensitySettings, altChannelProcess,
      writeRing, altReadOut, AltChanState.zero, altHopSize, altFFTSize]
  refine ⟨h, ?_⟩
  rw [h]
  simp

/-! ## Claim C9: stereo-wide on identical channels keeps them identical -/

/-- Helper: one stereo-wide sample step on equal left and right inputs, on
a state whose ITD buffers, crossfeed delays and crossfeed filter states
agree pairwise, produces equal outputs and preserves the agreement.  The
side signal is 0, so the virtual pan is 0 and the ITD and ILD stages are
neutral; the crossfeed acts symmetrically. -/
theorem stereoWide_equal_step (s : SpatialSettings) (sr l : ℝ)
    (st : SpatState) (hb : st.itdBufferL = st.itdBufferR)
    (hd : st.cfDelay0 = st.cfDelay1) (hf : st.cf0 = st.cf1) :
    (processStereoWide s sr st l l).1.1 = (processStereoWide s sr st l l).1.2
    ∧ (processStereoWide s sr st l l).2.itdBufferL
        = (processStereoWide s sr st l l).2.itdBufferR
    ∧ (processStereoWide s sr st l l).2.cfDelay0
        = (processStereoWide s sr st l l).2.cfDelay1
    ∧ (processStereoWide s sr st l l).2.cf0
        = (processStereoWide s sr st l l).2.cf1 := by
  simp only [processStereoWide, sub_self, zero_mul, mul_zero, add_zero,
    sub_zero, Real.tanh_zero, applyITD, applyILD, applyCrossfeed, onePole,
    lt_self_iff_false, if_false, hb, hd, hf]
  norm_num

/-- Helper: the stereo-wide loop on a block of equal samples emits pairs
with equal components. -/
theorem stereoWide_loop_equal (s : SpatialSettings)
    (hm : s.mode = SpatialMode.stereoWide) (sr : ℝ) :
    ∀ (xs : List ℝ) (st : SpatState),
      st.itdBufferL = st.itdBufferR → st.cfDelay0 = st.cfDelay1 →
      st.cf0 = st.cf1 →
      ∀ p ∈ (spatialLoop s sr st (xs.zip xs)).1, p.1 = p.2 := by
  intro xs
  induction xs with
  | nil => intro st _ _ _ p hp; simp [spatialLoop] at hp
  | cons x tl ih =>
    intro st hb hd hf p hp
    have hstep := stereoWide_equal_step s sr x st hb hd hf
    simp only [List.zip_cons_cons, spatialLoop, spatialStep, hm,
      List.mem_cons] at hp
    rcases hp with hp | hp
    · subst hp
      simp [hstep.1]
    · exact ih (processStereoWide s sr st x x).2 hstep.2.1 hstep.2.2.1
        hstep.2.2.2 p hp

/-- Helper: mapping the two projections over a list of pairs with equal
components gives equal lists. -/
theorem map_fst_eq_map_snd {l : List (ℝ × ℝ)} (h : ∀ p ∈ l, p.1 = p.2) :
    l.map Prod.fst = l.map Prod.snd := by
  induction l with
  | nil => rfl
  | cons hd tl ih =>
    simp only [List.map_cons, h hd (by simp), List.cons.injEq, true_and]
    exact ih (fun p hp => h p (by simp [hp]))

/-- C9: in stereo-wide mode with width 100, a block whose left and right
samples agree at every index, processed from the zeroed state, produces
outputs with outL equal to outR at every sample. -/
theorem stereoWide_equal_channels (s : SpatialSettings) (sr : ℝ)
    (inL inR : List ℝ) (hen : s.enabled = true)
    (hm : s.mode = SpatialMode.stereoWide) (_hw : s.width = 100)
    (hin : inL = inR) :
    (spatialProcess s sr SpatState.zero inL inR).1.1
      = (spatialProcess s sr SpatState.zero inL inR).1.2 := by
  have hcond : ¬ (¬ s.enabled ∨ s.mode = SpatialMode.off) := by
    simp [hen, hm]
  subst hin
  simp only [spatialProcess, if_neg hcond]
  exact map_fst_eq_map_snd
    (stereoWide_loop_equal s hm sr inL SpatState.zero rfl rfl rfl)

/-- Witness for C9 on a concrete mono-equivalent block. -/
theorem stereoWide_equal_channels_witness :
    (spatialProcess wideSpatialSettings 48000 SpatState.zero
        [1/2, -1/4, 0] [1/2, -1/4, 0]).1.1
      = (spatialProcess wideSpatialSettings 48000 SpatState.zero
        [1/2, -1/4, 0] [1/2, -1/4, 0]).1.2 :=
  stereoWide_equal_channels wideSpatialSettings 48000
    [1/2, -1/4, 0] [1/2, -1/4, 0] rfl rfl rfl rfl

/-! ## Claim C8: FFT round trip and overlap-add normalization

First the twiddle-factor algebra, then the equivalence of the iterative
radix-2 algorithm with the discrete Fourier transform, Fourier inversion,
and finally the window normalization of the overlap-add. -/

/-- The twiddle factor is the complex exponential of its angle. -/
theorem twiddle_eq_exp (inv : Bool) (size j : ℕ) :
    twiddle inv size j
      = Complex.exp ((twidAngle inv size j : ℝ) * Complex.I) := by
  apply Complex.ext
  · simp [twiddle, Complex.exp_ofReal_mul_I_re]
  · simp [twiddle, Complex.exp_ofReal_mul_I_im]

/-- The twiddle angle is linear in the offset. -/
theorem twidAngle_add (inv : Bool) (size a b : ℕ) :
    twidAngle inv size (a + b)
      = twidAngle inv size a + twidAngle inv size b := by
  simp only [twidAngle]
  push_cast
  ring

/-- Twiddle factors multiply along offsets. -/
theorem twiddle_add (inv : Bool) (size a b : ℕ) :
    twiddle inv size (a + b) = twiddle inv size a * twiddle inv size b := by
  rw [twiddle_eq_exp, twiddle_eq_exp, twiddle_eq_exp, ← Complex.exp_add,
    twidAngle_add]
  push_cast
  ring_nf

/-- Twiddle factor at offset 0. -/
theorem twiddle_zero (inv : Bool) (size : ℕ) : twiddle inv size 0 = 1 := by
  apply Complex.ext <;> simp [twiddle, twidAngle]

/-- A full turn of the twiddle factor is 1. -/
theorem twiddle_size_self (inv : Bool) (m : ℕ) : twiddle inv m m = 1 := by
  rcases Nat.eq_zero_or_pos m with hm | hm
  · subst hm
    apply Complex.ext <;> simp [twiddle, twidAngle]
  · rw [twiddle_eq_exp]
    have hangle : twidAngle inv m m = (if inv then (1 : ℤ) else -1) * (2 * Real.pi) := by
      have hm' : (m : ℝ) ≠ 0 := Nat.cast_ne_zero.mpr hm.ne'
      cases inv <;> simp only [twidAngle, if_true, if_false] <;> field_simp
    rw [hangle]
    have := Complex.exp_int_mul_two_pi_mul_I (if inv then (1 : ℤ) else -1)
    rw [← this]
    congr 1
    push_cast
    cases inv <;> simp

/-- Twiddle factors are periodic in the offset with period the size. -/
theorem twiddle_periodic (inv : Bool) (m j : ℕ) :
    twiddle inv m (j + m) = twiddle inv m j := by
  rw [twiddle_add, twiddle_size_self, mul_one]

/-- Half a turn of the twiddle factor of an even size is -1. -/
theorem twiddle_half_turn (inv : Bool) (M : ℕ) (hM : 0 < M) :
    twiddle inv (2 * M) M = -1 := by
  rw [twiddle_eq_exp]
  have hangle : twidAngle inv (2 * M) M = (if inv then (1 : ℝ) else -1) * Real.pi := by
    have hM' : (M : ℝ) ≠ 0 := Nat.cast_ne_zero.mpr hM.ne'
    cases inv <;> simp only [twidAngle, if_true, if_false] <;> push_cast <;>
      field_simp <;> ring
  rw [hangle]
  cases inv
  · rw [show (if (false : Bool) then (1 : ℝ) else -1) = -1 by norm_num]
    rw [show ((-1 : ℝ) * Real.pi : ℝ) * Complex.I = -(Real.pi * Complex.I) by
      push_cast; ring]
    rw [Complex.exp_neg, Complex.exp_pi_mul_I]
    norm_num
  · rw [show (if (true : Bool) then (1 : ℝ) else -1) = 1 by norm_num]
    rw [show ((1 : ℝ) * Real.pi : ℝ) * Complex.I = Real.pi * Complex.I by
      push_cast; ring]
    exact Complex.exp_pi_mul_I

/-- Doubling the size and the offset leaves the twiddle angle unchanged. -/
theorem twidAngle_two_mul (inv : Bool) (M a : ℕ) :
    twidAngle inv (2 * M) (2 * a) = twidAngle inv M a := by
  rcases Nat.eq_zero_or_pos M with hM | hM
  · subst hM; simp [twidAngle]
  · have hM' : (M : ℝ) ≠ 0 := Nat.cast_ne_zero.mpr hM.ne'
    simp only [twidAngle]
    push_cast
    field_simp
    ring

/-- Doubling the size and the offset leaves the twiddle factor unchanged. -/
theorem twiddle_two_mul (inv : Bool) (M a : ℕ) :
    twiddle inv (2 * M) (2 * a) = twiddle inv M a := by
  rw [twiddle_eq_exp, twiddle_eq_exp, twidAngle_two_mul]

/-- The discrete Fourier transform only reads the first m samples. -/
theorem dft_congr (inv : Bool) (m : ℕ) {x y : ℕ → ℂ}
    (h : ∀ j < m, x j = y j) (k : ℕ) : dft inv m x k = dft inv m y k :=
  Finset.sum_congr rfl fun j hj => by rw [h j (Finset.mem_range.mp hj)]

/-- A sum over an even range split into even and odd indices. -/
theorem sum_range_even_odd (f : ℕ → ℂ) (M : ℕ) :
    ∑ j ∈ Finset.range (2 * M), f j
      = (∑ m ∈ Finset.range M, f (2 * m))
        + ∑ m ∈ Finset.range M, f (2 * m + 1) := by
  induction M with
  | zero => simp
  | succ M ih =>
    rw [show 2 * (M + 1) = 2 * M + 1 + 1 by ring, Finset.sum_range_succ,
      Finset.sum_range_succ, Finset.sum_range_succ,
      Finset.sum_range_succ (fun m => f (2 * m + 1)), ih]
    ring

/-- The backbone of the decimation-in-time butterfly: a transform of size
2M splits into the transforms of the even and odd subsequences. -/
theorem dft_split (inv : Bool) (M : ℕ) (y : ℕ → ℂ) (t : ℕ) :
    dft inv (2 * M) y t
      = dft inv M (fun m => y (2 * m)) t
        + twiddle inv (2 * M) t * dft inv M (fun m => y (2 * m + 1)) t := by
  unfold dft
  rw [sum_range_even_odd (fun j => y j * twiddle inv (2 * M) (j * t)) M]
  congr 1
  · exact Finset.sum_congr rfl fun m _ => by
      rw [show 2 * m * t = 2 * (m * t) by ring, twiddle_two_mul]
  · rw [Finset.mul_sum]
    exact Finset.sum_congr rfl fun m _ => by
      rw [show (2 * m + 1) * t = t + 2 * (m * t) by ring, twiddle_add,
        twiddle_two_mul]
      ring

/-- A whole number of turns of the twiddle factor is 1. -/
theorem twiddle_mul_size (inv : Bool) (M : ℕ) : ∀ m : ℕ,
    twiddle inv M (m * M) = 1
  | 0 => by simpa using twiddle_zero inv M
  | m + 1 => by
    rw [Nat.succ_mul, twiddle_add, twiddle_mul_size inv M m,
      twiddle_size_self, one_mul]

/-- The transform of size M is periodic in the bin index with period M. -/
theorem dft_periodic (inv : Bool) (M : ℕ) (y : ℕ → ℂ) (t : ℕ) :
    dft inv M y (t + M) = dft inv M y t := by
  unfold dft
  refine Finset.sum_congr rfl fun m _ => ?_
  rw [show m * (t + M) = m * t + m * M by ring, twiddle_add,
    twiddle_mul_size, mul_one]

/-- The upper half of the split transform: the odd contribution flips
sign. -/
theorem dft_split_high (inv : Bool) (M : ℕ) (hM : 0 < M) (y : ℕ → ℂ)
    (t : ℕ) :
    dft inv (2 * M) y (t + M)
      = dft inv M (fun m => y (2 * m)) t
        - twiddle inv (2 * M) t * dft inv M (fun m => y (2 * m + 1)) t := by
  rw [dft_split inv M y (t + M), dft_periodic, dft_periodic, twiddle_add,
    twiddle_half_turn inv M hM]
  ring

/-- Reversal of an even input drops its lowest bit. -/
theorem bitRev_two_mul : ∀ (k b : ℕ), bitRev (k + 1) (2 * b) = bitRev k b
  | 0, b => by simp [bitRev, Nat.mul_mod_right]
  | k + 1, b => by
    have hdiv : 2 * b / 2 ^ (k + 1) = b / 2 ^ k := by
      rw [pow_succ, Nat.mul_comm (2 ^ k) 2, ← Nat.div_div_eq_div_mul,
        Nat.mul_div_cancel_left b two_pos]
    rw [show bitRev (k + 1 + 1) (2 * b)
        = 2 * bitRev (k + 1) (2 * b) + 2 * b / 2 ^ (k + 1) % 2 from rfl,
      bitRev_two_mul k b, hdiv]
    rfl

/-- Reversal of an odd input sets the highest output bit. -/
theorem bitRev_two_mul_add_one : ∀ (k b : ℕ),
    bitRev (k + 1) (2 * b + 1) = 2 ^ k + bitRev k b
  | 0, b => by simp [bitRev, Nat.mul_add_mod]
  | k + 1, b => by
    have hdiv : (2 * b + 1) / 2 ^ (k + 1) = b / 2 ^ k := by
      rw [pow_succ, Nat.mul_comm (2 ^ k) 2, ← Nat.div_div_eq_div_mul]
      congr 1
      omega
    rw [show bitRev (k + 1 + 1) (2 * b + 1)
        = 2 * bitRev (k + 1) (2 * b + 1) + (2 * b + 1) / 2 ^ (k + 1) % 2
        from rfl,
      bitRev_two_mul_add_one k b, hdiv]
    rw [show bitRev (k + 1) b = 2 * bitRev k b + b / 2 ^ k % 2 from rfl]
    ring

/-- The decimation-in-time invariant of the butterfly passes: after the
passes of sizes up to 2 ^ s, block b of size 2 ^ s holds the size-2 ^ s
transform of the stride-decimated subsequence of the input selected by the
bit-reversed block index. -/
theorem fftPasses_dft (inv : Bool) (L : ℕ) (x : ℕ → ℂ) :
    ∀ s, s ≤ L → ∀ b t, b < 2 ^ (L - s) → t < 2 ^ s →
      fftPasses inv s (fun i => x (bitRev L i)) (b * 2 ^ s + t)
        = dft inv (2 ^ s)
            (fun m => x (m * 2 ^ (L - s) + bitRev (L - s) b)) t := by
  intro s
  induction s with
  | zero =>
    intro _ b t _ ht
    have ht0 : t = 0 := Nat.lt_one_iff.mp ht
    subst ht0
    simp [fftPasses, dft, Finset.sum_range_one, twiddle_zero, bitRev]
  | succ s ih =>
    intro hsL b t hb ht
    have hs : s ≤ L := Nat.le_of_succ_le hsL
    have hpow : (2 : ℕ) ^ (s + 1) = 2 * 2 ^ s := by rw [pow_succ]; ring
    have hhalf : (2 : ℕ) ^ (s + 1) / 2 = 2 ^ s := by
      rw [hpow, Nat.mul_div_cancel_left _ two_pos]
    have hmod : (b * 2 ^ (s + 1) + t) % 2 ^ (s + 1) = t := by
      rw [Nat.mul_comm b (2 ^ (s + 1)), Nat.mul_add_mod, Nat.mod_eq_of_lt ht]
    obtain ⟨l, hl⟩ : ∃ l, L - s = l + 1 := ⟨L - (s + 1), by omega⟩
    have hLs1 : L - (s + 1) = l := by omega
    have hb' : b < 2 ^ l := by rw [← hLs1]; exact hb
    have hb2 : 2 * b < 2 ^ (L - s) := by
      rw [hl, pow_succ]
      omega
    have hb21 : 2 * b + 1 < 2 ^ (L - s) := by
      rw [hl, pow_succ]
      omega
    show fftPass inv (2 ^ (s + 1)) (fftPasses inv s (fun i => x (bitRev L i)))
        (b * 2 ^ (s + 1) + t) = _
    simp only [fftPass, hmod, hhalf]
    rw [hLs1]
    by_cases ht' : t < 2 ^ s
    · rw [if_pos ht']
      have hidx1 : b * 2 ^ (s + 1) + t = 2 * b * 2 ^ s + t := by
        rw [hpow]; ring
      have hidx2 : 2 * b * 2 ^ s + t + 2 ^ s = (2 * b + 1) * 2 ^ s + t := by
        ring
      rw [hidx1, hidx2, ih hs (2 * b) t hb2 ht', ih hs (2 * b + 1) t hb21 ht']
      rw [hl, bitRev_two_mul l b, bitRev_two_mul_add_one l b]
      rw [hpow, dft_split]
      congr 1
      · refine dft_congr inv (2 ^ s) (fun m _ => ?_) t
        congr 1
        rw [pow_succ]
        ring
      · congr 1
        refine dft_congr inv (2 ^ s) (fun m _ => ?_) t
        congr 1
        rw [pow_succ]
        ring
    · rw [if_neg ht']
      have htlt : t < 2 * 2 ^ s := by rw [← hpow]; exact ht
      have hts : 2 ^ s ≤ t := Nat.le_of_not_lt ht'
      obtain ⟨u, hu, htu⟩ : ∃ u, u < 2 ^ s ∧ t = u + 2 ^ s :=
        ⟨t - 2 ^ s, by omega, by omega⟩
      have hbb : b * 2 ^ (s + 1) = 2 * b * 2 ^ s := by rw [hpow]; ring
      have hidx1 : b * 2 ^ (s + 1) + t - 2 ^ s = 2 * b * 2 ^ s + u := by
        rw [hbb, htu, ← Nat.add_assoc, Nat.add_sub_cancel]
      have hidx2 : b * 2 ^ (s + 1) + t = (2 * b + 1) * 2 ^ s + u := by
        rw [hbb, htu]; ring
      have htmu : t - 2 ^ s = u := by rw [htu, Nat.add_sub_cancel]
      rw [hidx1, hidx2, htmu, ih hs (2 * b) u hb2 hu, ih hs (2 * b + 1) u hb21 hu]
      rw [hl, bitRev_two_mul l b, bitRev_two_mul_add_one l b]
      rw [htu]
      rw [hpow, dft_split_high inv (2 ^ s) (pow_pos two_pos s) _ u]
      congr 1
      · refine dft_congr inv (2 ^ s) (fun m _ => ?_) u
        congr 1
        rw [pow_succ]
        ring
      · congr 1
        refine dft_congr inv (2 ^ s) (fun m _ => ?_) u
        congr 1
        rw [pow_succ]
        ring

/-- The forward run of the iterative FFT computes the forward discrete
Fourier transform on every index below the length. -/
theorem fftRun_false_eq_dft (L : ℕ) (x : ℕ → ℂ) (k : ℕ) (hk : k < 2 ^ L) :
    fftRun false L x k = dft false (2 ^ L) x k := by
  have h := fftPasses_dft false L x L le_rfl 0 k
    (by simpa using Nat.one_pos) hk
  simp only [Nat.sub_self, pow_zero, Nat.zero_mul, Nat.zero_add] at h
  show fftPasses false L (fun i => x (bitRev L i)) k = _
  rw [h]
  refine dft_congr false (2 ^ L) (fun m _ => ?_) k
  show x (m * 1 + bitRev 0 0) = x m
  simp [bitRev]

/-- The inverse run computes the inverse-kernel transform scaled by the
length. -/
theorem fftRun_true_eq_dft (L : ℕ) (x : ℕ → ℂ) (k : ℕ) (hk : k < 2 ^ L) :
    fftRun true L x k = dft true (2 ^ L) x k / ((2 ^ L : ℕ) : ℂ) := by
  have h := fftPasses_dft true L x L le_rfl 0 k
    (by simpa using Nat.one_pos) hk
  simp only [Nat.sub_self, pow_zero, Nat.zero_mul, Nat.zero_add] at h
  show fftPasses true L (fun i => x (bitRev L i)) k / ((2 ^ L : ℕ) : ℂ) = _
  rw [h]
  congr 1
  refine dft_congr true (2 ^ L) (fun m _ => ?_) k
  show x (m * 1 + bitRev 0 0) = x m
  simp [bitRev]

/-- Product of a forward and an inverse twiddle as a power of a primitive
phase. -/
theorem twiddle_prod_pow (n j k m : ℕ) :
    twiddle false n (j * m) * twiddle true n (j * k)
      = Complex.exp
          (((2 * Real.pi * ((k : ℝ) - (m : ℝ)) / (n : ℝ) : ℝ)) * Complex.I)
          ^ j := by
  rw [twiddle_eq_exp, twiddle_eq_exp, ← Complex.exp_add,
    ← Complex.exp_nat_mul]
  congr 1
  simp only [twidAngle, if_false, if_true, Bool.false_eq_true]
  push_cast
  ring

/-- Sum of the powers of a nontrivial root of unity over a full period. -/
theorem root_of_unity_sum (n : ℕ) (d : ℤ) (hd : ¬ (n : ℤ) ∣ d) :
    ∑ j ∈ Finset.range n,
        Complex.exp (((2 * Real.pi * (d : ℝ) / (n : ℝ) : ℝ)) * Complex.I) ^ j
      = 0 := by
  rcases Nat.eq_zero_or_pos n with hn | hn
  · subst hn; simp
  have hn' : (n : ℝ) ≠ 0 := Nat.cast_ne_zero.mpr hn.ne'
  set z : ℂ :=
    Complex.exp (((2 * Real.pi * (d : ℝ) / (n : ℝ) : ℝ)) * Complex.I) with hz
  have hz1 : z ≠ 1 := by
    intro h
    obtain ⟨m, hm⟩ := Complex.exp_eq_one_iff.mp (hz ▸ h)
    have h2 : ((2 * Real.pi * (d : ℝ) / (n : ℝ) : ℝ) : ℂ)
        = (m : ℂ) * (2 * (Real.pi : ℂ)) := by
      apply mul_right_cancel₀ Complex.I_ne_zero
      rw [hm]; ring
    have h3 : 2 * Real.pi * (d : ℝ) / (n : ℝ) = (m : ℝ) * (2 * Real.pi) := by
      exact_mod_cast h2
    have hpi := Real.pi_ne_zero
    have h4 : (d : ℝ) = (m : ℝ) * (n : ℝ) := by
      field_simp at h3
      have h3' : 2 * Real.pi * (d : ℝ) = 2 * Real.pi * ((m : ℝ) * (n : ℝ)) := by
        linear_combination h3
      exact mul_left_cancel₀ (mul_ne_zero two_ne_zero hpi) h3' 
    have h5 : d = m * n := by exact_mod_cast h4
    exact hd ⟨m, by rw [h5]; ring⟩
  have hzn : z ^ n = 1 := by
    rw [hz, ← Complex.exp_nat_mul]
    have harg : ((n : ℂ)) * (((2 * Real.pi * (d : ℝ) / (n : ℝ) : ℝ)) * Complex.I)
        = (d : ℂ) * (2 * (Real.pi : ℂ) * Complex.I) := by
      have : ((n : ℝ)) * (2 * Real.pi * (d : ℝ) / (n : ℝ)) = (d : ℝ) * (2 * Real.pi) := by
        field_simp
        ring
      calc ((n : ℂ)) * (((2 * Real.pi * (d : ℝ) / (n : ℝ) : ℝ)) * Complex.I)
          = (((n : ℝ) * (2 * Real.pi * (d : ℝ) / (n : ℝ)) : ℝ) : ℂ) * Complex.I := by
            push_cast; ring
        _ = (((d : ℝ) * (2 * Real.pi) : ℝ) : ℂ) * Complex.I := by rw [this]
        _ = (d : ℂ) * (2 * (Real.pi : ℂ) * Complex.I) := by push_cast; ring
    rw [harg]
    exact Complex.exp_int_mul_two_pi_mul_I d
  have hgeom := geom_sum_eq hz1 n
  rw [hgeom, hzn]
  simp

/-- Fourier inversion for the transform pair of the worklet: the inverse
kernel applied to the forward transform returns n times the input. -/
theorem dft_inversion (n : ℕ) (x : ℕ → ℂ) (k : ℕ) (hk : k < n) :
    dft true n (dft false n x) k = (n : ℂ) * x k := by
  unfold dft
  calc ∑ j ∈ Finset.range n,
        (∑ m ∈ Finset.range n, x m * twiddle false n (m * j))
          * twiddle true n (j * k)
      = ∑ j ∈ Finset.range n, ∑ m ∈ Finset.range n,
          x m * (twiddle false n (j * m) * twiddle true n (j * k)) := by
        refine Finset.sum_congr rfl fun j _ => ?_
        rw [Finset.sum_mul]
        refine Finset.sum_congr rfl fun m _ => ?_
        rw [Nat.mul_comm m j]
        ring
    _ = ∑ m ∈ Finset.range n, ∑ j ∈ Finset.range n,
          x m * (twiddle false n (j * m) * twiddle true n (j * k)) :=
        Finset.sum_comm
    _ = ∑ m ∈ Finset.range n,
          x m * ∑ j ∈ Finset.range n,
            Complex.exp
              (((2 * Real.pi * ((k : ℝ) - (m : ℝ)) / (n : ℝ) : ℝ)) * Complex.I)
              ^ j := by
        refine Finset.sum_congr rfl fun m _ => ?_
        rw [Finset.mul_sum]
        refine Finset.sum_congr rfl fun j _ => ?_
        rw [twiddle_prod_pow]
    _ = (n : ℂ) * x k := by
        rw [Finset.sum_eq_single_of_mem k (Finset.mem_range.mpr hk)]
        · have hzero : ((2 * Real.pi * ((k : ℝ) - (k : ℝ)) / (n : ℝ) : ℝ)) = 0 := by
            simp
          rw [hzero]
          simp [mul_comm]
        · intro m hm hmk
          have hmn : m < n := Finset.mem_range.mp hm
          have hdvd : ¬ (n : ℤ) ∣ ((k : ℤ) - (m : ℤ)) := by
            intro hdvd
            have hne : (k : ℤ) - (m : ℤ) ≠ 0 := by
              intro h0
              exact hmk (by omega)
            have habs := Int.le_of_dvd (abs_pos.mpr hne) ((dvd_abs _ _).mpr hdvd)
            have : |(k : ℤ) - (m : ℤ)| < (n : ℤ) := by
              rw [abs_lt]
              omega
            omega
          have hsum := root_of_unity_sum n ((k : ℤ) - (m : ℤ)) hdvd
          have hcast : (((k : ℤ) - (m : ℤ) : ℤ) : ℝ) = (k : ℝ) - (m : ℝ) := by
            push_cast; ring
          rw [hcast] at hsum
          rw [hsum, mul_zero]

/-- The round trip of the worklet FFT: the inverse transform of the
forward transform is the identity on every index below the length. -/
theorem fft_roundtrip (L : ℕ) (x : ℕ → ℂ) (k : ℕ) (hk : k < 2 ^ L) :
    fftRun true L (fftRun false L x) k = x k := by
  rw [fftRun_true_eq_dft L _ k hk,
    dft_congr true (2 ^ L) (fun j hj => fftRun_false_eq_dft L x j hj) k,
    dft_inversion (2 ^ L) x k hk]
  have hne : ((2 ^ L : ℕ) : ℂ) ≠ 0 := by
    exact_mod_cast pow_ne_zero L (two_ne_zero)
  field_simp

/-- A full-period sum of equally spaced cosines vanishes unless the
frequency is a multiple of the period. -/
theorem cos_sum_zero (n d : ℕ) (hd : ¬ n ∣ d) :
    ∑ i ∈ Finset.range n,
      Real.cos (2 * Real.pi * (d : ℝ) * (i : ℝ) / (n : ℝ)) = 0 := by
  have hdint : ¬ (n : ℤ) ∣ (d : ℤ) := by exact_mod_cast hd
  have hsum := root_of_unity_sum n (d : ℤ) hdint
  have hcast : (((d : ℤ)) : ℝ) = (d : ℝ) := by push_cast; rfl
  rw [hcast] at hsum
  have hre := congrArg Complex.re hsum
  rw [Complex.re_sum] at hre
  calc ∑ i ∈ Finset.range n,
        Real.cos (2 * Real.pi * (d : ℝ) * (i : ℝ) / (n : ℝ))
      = ∑ i ∈ Finset.range n,
          (Complex.exp
            (((2 * Real.pi * (d : ℝ) / (n : ℝ) : ℝ)) * Complex.I) ^ i).re := by
        refine Finset.sum_congr rfl fun i _ => ?_
        rw [← Complex.exp_nat_mul]
        rw [show ((i : ℂ)) * (((2 * Real.pi * (d : ℝ) / (n : ℝ) : ℝ)) * Complex.I)
            = ((2 * Real.pi * (d : ℝ) * (i : ℝ) / (n : ℝ) : ℝ)) * Complex.I by
          push_cast; ring]
        rw [Complex.exp_ofReal_mul_I_re]
    _ = 0 := hre

/-- The sum of the squared Hann window over its full period:
3 N / 8 for N a power of two of at least 4. -/
theorem hann_sq_sum (L : ℕ) (hL : 2 ≤ L) :
    ∑ i ∈ Finset.range (2 ^ L), hann (2 ^ L) i * hann (2 ^ L) i
      = 3 * ((2 ^ L : ℕ) : ℝ) / 8 := by
  set N := 2 ^ L with hN
  have hN4 : 4 ≤ N := by
    calc 4 = 2 ^ 2 := by norm_num
    _ ≤ 2 ^ L := Nat.pow_le_pow_right two_pos hL
  have h1 : ¬ N ∣ 1 := by
    intro h
    have := Nat.le_of_dvd one_pos h
    omega
  have h2 : ¬ N ∣ 2 := by
    intro h
    have := Nat.le_of_dvd two_pos h
    omega
  have hc1 := cos_sum_zero N 1 h1
  have hc2 := cos_sum_zero N 2 h2
  push_cast at hc1 hc2
  have hpt : ∀ i : ℕ, hann N i * hann N i
      = 3 / 8 - 1 / 2 * Real.cos (2 * Real.pi * (1 : ℝ) * (i : ℝ) / (N : ℝ))
        + 1 / 8 * Real.cos (2 * Real.pi * (2 : ℝ) * (i : ℝ) / (N : ℝ)) := by
    intro i
    have e1 : 2 * Real.pi * (1 : ℝ) * (i : ℝ) / (N : ℝ)
        = 2 * Real.pi * (i : ℝ) / (N : ℝ) := by ring
    have e2 : 2 * Real.pi * (2 : ℝ) * (i : ℝ) / (N : ℝ)
        = 2 * (2 * Real.pi * (i : ℝ) / (N : ℝ)) := by ring
    have hsq := Real.cos_sq (2 * Real.pi * (i : ℝ) / (N : ℝ))
    rw [e1, e2]
    unfold hann
    linear_combination (1 / 4) * hsq
  calc ∑ i ∈ Finset.range N, hann N i * hann N i
      = ∑ i ∈ Finset.range N,
          (3 / 8 - 1 / 2 * Real.cos (2 * Real.pi * (1 : ℝ) * (i : ℝ) / (N : ℝ))
            + 1 / 8 * Real.cos (2 * Real.pi * (2 : ℝ) * (i : ℝ) / (N : ℝ))) :=
        Finset.sum_congr rfl fun i _ => hpt i
    _ = 3 * ((N : ℕ) : ℝ) / 8 := by
        rw [Finset.sum_add_distrib, Finset.sum_sub_distrib, ← Finset.mul_sum,
          ← Finset.mul_sum, hc1, hc2, Finset.sum_const, Finset.card_range]
        simp
        ring

/-- The number of samples in a hop: a quarter of the FFT length. -/
theorem hop_mul_four (L : ℕ) (hL : 2 ≤ L) : 2 ^ L = 4 * (2 ^ L / 4) := by
  have h : 2 ^ L = 2 ^ (L - 2) * 4 := by
    rw [show (4 : ℕ) = 2 ^ 2 by norm_num, ← pow_add]
    congr 1
    omega
  rw [h, Nat.mul_div_cancel _ (by norm_num : (0 : ℕ) < 4)]
  ring

/-- The overlap-add normalization scale of the worklet evaluates to 1/3. -/
theorem extScale_eq (L : ℕ) (hL : 2 ≤ L) :
    extScale (2 ^ L) (2 ^ L / 4) = 1 / 3 := by
  have hfour := hop_mul_four L hL
  set H := 2 ^ L / 4 with hH
  have hHpos : 0 < H := by
    have : (4 : ℕ) ≤ 2 ^ L := by
      calc (4 : ℕ) = 2 ^ 2 := by norm_num
      _ ≤ 2 ^ L := Nat.pow_le_pow_right two_pos hL
    omega
  have hHr : ((2 ^ L : ℕ) : ℝ) = 4 * (H : ℝ) := by exact_mod_cast hfour
  have hHne : (H : ℝ) ≠ 0 := Nat.cast_ne_zero.mpr hHpos.ne'
  unfold extScale extWindowSum
  rw [hann_sq_sum L hL, hHr]
  field_simp
  ring

/-- The four overlapping squared window values at stride one hop always sum
to 3/2: the Hann phases advance by a quarter turn per hop. -/
theorem hann_four_sum (L : ℕ) (hL : 2 ≤ L) (j0 : ℕ) :
    ∑ k ∈ Finset.range 4,
        hann (2 ^ L) (j0 + k * (2 ^ L / 4)) * hann (2 ^ L) (j0 + k * (2 ^ L / 4))
      = 3 / 2 := by
  have hfour := hop_mul_four L hL
  set H := 2 ^ L / 4 with hH
  have hHpos : 0 < H := by
    have : (4 : ℕ) ≤ 2 ^ L := by
      calc (4 : ℕ) = 2 ^ 2 := by norm_num
      _ ≤ 2 ^ L := Nat.pow_le_pow_right two_pos hL
    omega
  have hNr : ((2 ^ L : ℕ) : ℝ) = 4 * (H : ℝ) := by exact_mod_cast hfour
  have hHne : (H : ℝ) ≠ 0 := Nat.cast_ne_zero.mpr hHpos.ne'
  set a : ℝ := 2 * Real.pi * (j0 : ℝ) / ((2 ^ L : ℕ) : ℝ) with ha
  have hang : ∀ k : ℕ, 2 * Real.pi * ((j0 : ℝ) + (k : ℝ) * (H : ℝ)) / ((2 ^ L : ℕ) : ℝ)
      = a + (k : ℝ) * (Real.pi / 2) := by
    intro k
    rw [ha, hNr]
    field_simp
    ring
  have hw : ∀ k : ℕ, hann (2 ^ L) (j0 + k * H)
      = 0.5 * (1 - Real.cos (a + (k : ℝ) * (Real.pi / 2))) := by
    intro k
    unfold hann
    rw [← hang k]
    norm_num [hNr]
  rw [Finset.sum_range_succ, Finset.sum_range_succ, Finset.sum_range_succ,
    Finset.sum_range_one, hw 0, hw 1, hw 2, hw 3]
  have hc0 : a + (0 : ℕ) * (Real.pi / 2) = a := by push_cast; ring
  have hc1 : Real.cos (a + (1 : ℕ) * (Real.pi / 2)) = -Real.sin a := by
    rw [show a + ((1 : ℕ) : ℝ) * (Real.pi / 2) = a + Real.pi / 2 by push_cast; ring]
    exact Real.cos_add_pi_div_two a
  have hc2 : Real.cos (a + (2 : ℕ) * (Real.pi / 2)) = -Real.cos a := by
    rw [show a + ((2 : ℕ) : ℝ) * (Real.pi / 2) = a + Real.pi by push_cast; ring]
    exact Real.cos_add_pi a
  have hc3 : Real.cos (a + (3 : ℕ) * (Real.pi / 2)) = Real.sin a := by
    rw [show a + ((3 : ℕ) : ℝ) * (Real.pi / 2) = a + Real.pi + Real.pi / 2 by
      push_cast; ring]
    rw [Real.cos_add_pi_div_two, Real.sin_add_pi]
    ring
  rw [hc0, hc1, hc2, hc3]
  have hpyth := Real.sin_sq_add_cos_sq a
  linear_combination (1 / 2) * hpyth

/-- The steady-state overlap-add reconstruction of the worklet multiplies
the signal by exactly one half: the round trip is the identity on each
frame, but the squared-window overlap (3/2) times the normalization scale
(1/3) is 1/2, not 1. -/
theorem ola_half (L : ℕ) (hL : 2 ≤ L) (x : ℤ → ℝ) (t : ℤ) (j0 : ℕ)
    (hj : j0 < 2 ^ L / 4) : olaOut L x t j0 = x t / 2 := by
  have hfour := hop_mul_four L hL
  have hterm : ∀ k ∈ Finset.range 4,
      (frameRoundtrip L x (t - ((j0 + k * (2 ^ L / 4) : ℕ) : ℤ))
          (j0 + k * (2 ^ L / 4))).re
        * hann (2 ^ L) (j0 + k * (2 ^ L / 4)) * extScale (2 ^ L) (2 ^ L / 4)
      = x t * extScale (2 ^ L) (2 ^ L / 4)
          * (hann (2 ^ L) (j0 + k * (2 ^ L / 4))
            * hann (2 ^ L) (j0 + k * (2 ^ L / 4))) := by
    intro k hk
    have hk4 : k < 4 := Finset.mem_range.mp hk
    have hik : j0 + k * (2 ^ L / 4) < 2 ^ L := by
      have hk3 : k ≤ 3 := by omega
      have : k * (2 ^ L / 4) ≤ 3 * (2 ^ L / 4) :=
        Nat.mul_le_mul_right _ hk3
      omega
    have hrt := fft_roundtrip L
      (fun j => ((x ((t - ((j0 + k * (2 ^ L / 4) : ℕ) : ℤ)) + (j : ℤ))
        * hann (2 ^ L) j : ℝ) : ℂ))
      (j0 + k * (2 ^ L / 4)) hik
    unfold frameRoundtrip
    rw [hrt]
    simp only [Complex.ofReal_re]
    rw [show (t - ((j0 + k * (2 ^ L / 4) : ℕ) : ℤ))
        + ((j0 + k * (2 ^ L / 4) : ℕ) : ℤ) = t by ring]
    ring
  unfold olaOut
  rw [Finset.sum_congr rfl hterm, ← Finset.mul_sum, hann_four_sum L hL j0,
    extScale_eq L hL]
  ring

/-- C8 amended: at the worklet sizes (FFT length 1024, hop 256), the
inverse transform composed with the forward transform is the identity
exactly, over exact real arithmetic; but the synthesis window and the
overlap-add normalization scale reconstruct exactly one half of the
original frame, not the frame itself: the squared-window overlap sums to
3/2 per sample and the scale is 1/3. -/
theorem fft_roundtrip_ola_half :
    (∀ (z : ℕ → ℂ) (k : ℕ), k < extFFTSize →
        fftRun true 10 (fftRun false 10 z) k = z k)
      ∧ ∀ (x : ℤ → ℝ) (t : ℤ) (j0 : ℕ), j0 < extHopSize →
          olaOut 10 x t j0 = x t / 2 := by
  constructor
  · intro z k hk
    exact fft_roundtrip 10 z k (by norm_num [extFFTSize] at hk ⊢; omega)
  · intro x t j0 hj
    refine ola_half 10 (by norm_num) x t j0 ?_
    norm_num [extHopSize] at hj ⊢
    omega

/-- Witness for the amended C8 on the constant signal 1/2. -/
theorem fft_roundtrip_ola_half_witness :
    olaOut 10 (fun _ => (1 : ℝ) / 2) 7 3 = (1 / 2 : ℝ) / 2 :=
  fft_roundtrip_ola_half.2 (fun _ => (1 : ℝ) / 2) 7 3
    (by norm_num [extHopSize])

/-- Counterexample to C8 as stated: the windowed, scaled overlap-add of
the round-tripped frames of the constant signal 1 reconstructs 1/2, so
the chain does not reconstruct the original frame (the claimed identity
normalization is off by a factor of 2). -/
theorem ola_not_identity :
    olaOut 10 (fun _ => (1 : ℝ)) 0 0 = 1 / 2
      ∧ olaOut 10 (fun _ => (1 : ℝ)) 0 0 ≠ (fun _ => (1 : ℝ)) 0 := by
  have h : olaOut 10 (fun _ => (1 : ℝ)) 0 0 = 1 / 2 := by
    rw [ola_half 10 (by norm_num) (fun _ => (1 : ℝ)) 0 0 (by norm_num)]
  exact ⟨h, by rw [h]; norm_num⟩
